import Mathlib

/-!
A shallow embedding of `src/presence/AnimatePresence.tsx` (the `AnimatePresence`
tree coordinator and the `PresenceChild` completion aggregator) of the
`nanoanim` repository, together with proofs about the embedded operations.

Modelling conventions:
* React element keys are `Option String` (React stringifies keys; an absent key
  is `none`).  `getChildKey` is the source's `child.key || ''`, so a `some ""`
  key (falsy in JS) also maps to `""`.
* JS `Map` objects are association lists; `Map.set` replaces in place or
  appends, `Map.delete` removes, preserving insertion order, as in JS.
* JS array `splice`/`indexOf`/`findIndex` are modelled with their exact
  clamping/`-1` conventions (`jsSpliceInsert`, `jsSpliceRemove1`, `jsIndexOf`,
  `jsFindIndex`).
* The coordinator's per-render data (the `exiting` set, the captured
  `filteredChildren` target, the `onExit` closures of the currently rendered
  exiting children) is stored in an explicit `CoordState`, rebuilt by each
  evaluation pass exactly as the component body does.  `CoordState` and its
  `onExit` describe one closure's body at the state it captured; the
  closure-identity bookkeeping — each render allocates a fresh `exiting` Set
  object and fresh closures, while `PresenceChild`'s context, memoized on
  `[isPresent]`, pins a still-exiting key's participants to the closure of the
  pass in which the key flipped — is carried by the `SysState` system at the
  end of the file.
* `forceRender` and the global `onExitComplete` prop are observed as counters.
-/

namespace Nanoanim

open List

/-- JS `Array.prototype.splice` index normalisation for a non-negative delete
count: a negative start counts from the end (clamped at 0), a too-large start
is clamped to the length. -/
def jsClampIndex (len : Nat) (start : Int) : Nat :=
  if start < 0 then ((len : Int) + start).toNat else min start.toNat len

/-- JS `arr.splice(start, 0, x)`: insert `x` at the normalised index. -/
def jsSpliceInsert (l : List α) (start : Int) (x : α) : List α :=
  let s := jsClampIndex l.length start
  l.take s ++ x :: l.drop s

/-- JS `arr.splice(start, 1)`: remove one element at the normalised index. -/
def jsSpliceRemove1 (l : List α) (start : Int) : List α :=
  let s := jsClampIndex l.length start
  l.take s ++ l.drop (s + 1)

/-- JS `Array.prototype.findIndex`: first index satisfying `p`, else `-1`. -/
def jsFindIndex (p : α → Bool) : List α → Int
  | [] => -1
  | a :: l => if p a then 0 else (if jsFindIndex p l < 0 then -1 else jsFindIndex p l + 1)

/-- JS `Array.prototype.indexOf` on key arrays: first index of `k`, else `-1`. -/
def jsIndexOf (l : List String) (k : String) : Int :=
  jsFindIndex (fun a => a == k) l

/-- First index of `k` in `l` as a natural number (`l.length` when absent);
used to state positions.  Agrees with `jsIndexOf` on members. -/
def posIn : List String → String → Nat
  | [], _ => 0
  | a :: l, k => if a = k then 0 else posIn l k + 1

/-- JS `Map.get`. -/
def mapGet (m : List (String × β)) (k : String) : Option β :=
  match m with
  | [] => none
  | (a, v) :: m => if a = k then some v else mapGet m k

/-- JS `Map.set`: overwrite in place if the key exists (keeping insertion
order), otherwise append. -/
def mapSet (m : List (String × β)) (k : String) (v : β) : List (String × β) :=
  match m with
  | [] => [(k, v)]
  | (a, w) :: m => if a = k then (a, v) :: m else (a, w) :: mapSet m k v

/-- JS `Map.delete`.  A JS `Map` never holds two entries with the same key, so
removing every association of `k` is the faithful reading. -/
def mapDelete (m : List (String × β)) (k : String) : List (String × β) :=
  m.filter (fun p => p.1 ≠ k)

/-- A React child element: its `key` prop (already stringified by React, or
absent) and an opaque identity standing for the element's content. -/
structure Element where
  key : Option String
  id : Nat
deriving DecidableEq, Repr

/-- `const getChildKey = (child) => child.key || ''`.  Both an absent key and
the (falsy) empty-string key yield `""`. -/
def getChildKey (child : Element) : String :=
  child.key.getD ""

/-- `updateChildLookup`: `children.forEach(child => allChildren.set(getChildKey(child), child))`. -/
def updateChildLookup (children : List Element) (allChildren : List (String × Element)) :
    List (String × Element) :=
  children.foldl (fun m child => mapSet m (getChildKey child) child) allChildren

/-- A node of the sequence rendered by one pass: the (stringified) key the
`PresenceChild` wrapper was given, its `isPresent` flag, whether it carries an
`onExitComplete` (exit) callback, and the wrapped child element. -/
structure RNode where
  key : String
  isPresent : Bool
  hasExitCb : Bool
  child : Element
deriving DecidableEq, Repr

/-- The element a rendered `PresenceChild` contributes to the committed
`presentChildren` list: its React key is the string `getChildKey` key. -/
def RNode.toElement (rn : RNode) : Element :=
  { key := some rn.key, id := rn.child.id }

/-- An exiting wrapper: `<PresenceChild isPresent={false} onExitComplete={onExit}>`. -/
def exNode (k : String) (child : Element) : RNode :=
  { key := k, isPresent := false, hasExitCb := true, child := child }

/-- A present wrapper: `<PresenceChild isPresent>` (no exit callback). -/
def presentNode (child : Element) : RNode :=
  { key := getChildKey child, isPresent := true, hasExitCb := false, child := child }

/-- The diff loop (lines 143-149): every committed key absent from the target
keys is added to the (insertion-ordered, deduplicated) `exiting` set. -/
def computeExiting (presentKeys targetKeys : List String) : List String :=
  presentKeys.foldl
    (fun ex k => if k ∈ targetKeys then ex else if k ∈ ex then ex else ex ++ [k])
    []

/-- The `exiting.forEach` loop (lines 153-196) followed by the present-wrapping
map (lines 200-209): starting from the target children (each wrapped present),
each exiting key that is not resurrected and has a descriptor in `allChildren`
has its last-known descriptor spliced in, as an exiting wrapper, at the index
the key holds in `presentKeys`.  (The source wraps the non-exiting children
after splicing; since splicing never moves or rewraps the target-derived
nodes, wrapping them first yields the same list.)  `outputFold` is the
splicing loop itself, abstracted over its accumulator. -/
def outputFold (presentKeys targetKeys : List String) (allChildren : List (String × Element))
    (ex : List String) (base : List RNode) : List RNode :=
  ex.foldl
    (fun out k =>
      if k ∈ targetKeys then out
      else
        match mapGet allChildren k with
        | none => out
        | some child => jsSpliceInsert out (jsIndexOf presentKeys k) (exNode k child))
    base

def buildOutput (ex presentKeys targetKeys : List String)
    (allChildren : List (String × Element)) (target : List Element) : List RNode :=
  outputFold presentKeys targetKeys allChildren ex (target.map presentNode)

/-- The persistent and per-render state of one `AnimatePresence` instance.
`forceRenders` and `globalCb` count calls of `forceRender` and of the global
`onExitComplete` prop. -/
structure CoordState where
  isInitialRender : Bool
  mounted : Bool
  allChildren : List (String × Element)
  presentChildren : List Element
  exiting : List String
  target : List Element
  rendered : List RNode
  forceRenders : Nat
  globalCb : Nat
deriving DecidableEq, Repr

/-- State of a freshly mounted `AnimatePresence` before its first pass. -/
def CoordState.init : CoordState :=
  { isInitialRender := true
    mounted := true
    allChildren := []
    presentChildren := []
    exiting := []
    target := []
    rendered := []
    forceRenders := 0
    globalCb := 0 }

/-- Keys of the currently rendered exiting wrappers: exactly those for which a
live `onExit` closure exists. -/
def CoordState.liveCbKeys (s : CoordState) : List String :=
  (s.rendered.filter (fun rn => rn.hasExitCb)).map (fun rn => rn.key)

/-- One evaluation pass of the `AnimatePresence` body together with its layout
effect.  The initial render skips diffing and commits the raw target; a later
render diffs the committed keys against the target keys, renders the output
(target children wrapped present, non-resurrected exiting descriptors spliced
back in) and commits it, and the layout effect updates `allChildren` from the
target. -/
def renderPass (s : CoordState) (newTarget : List Element) : CoordState :=
  if s.isInitialRender then
    { s with
      isInitialRender := false
      allChildren := updateChildLookup newTarget s.allChildren
      presentChildren := newTarget
      exiting := []
      target := newTarget
      rendered := newTarget.map presentNode }
  else
    let presentKeys := s.presentChildren.map getChildKey
    let targetKeys := newTarget.map getChildKey
    let ex := computeExiting presentKeys targetKeys
    let out := buildOutput ex presentKeys targetKeys s.allChildren newTarget
    { s with
      allChildren := updateChildLookup newTarget s.allChildren
      presentChildren := out.map RNode.toElement
      exiting := ex
      target := newTarget
      rendered := out }

/-- The body of the `onExit` closure for key `k` (lines 162-181): delete `k`
from `allChildren` and from `exiting`, splice the child with React key `k` out
of `presentChildren` (a JS `findIndex`/`splice(-1, 1)` pair, so when no child
matches the last element is removed); if `exiting` drained, overwrite
`presentChildren` with the captured target and, unless the component has
unmounted, force a re-render and invoke the global `onExitComplete`. -/
def onExit (s : CoordState) (k : String) : CoordState :=
  let allChildren := mapDelete s.allChildren k
  let exiting := s.exiting.filter (fun j => j ≠ k)
  let removeIndex := jsFindIndex (fun child => child.key == some k) s.presentChildren
  let presentChildren := jsSpliceRemove1 s.presentChildren removeIndex
  if exiting.isEmpty then
    if s.mounted then
      { s with
        allChildren := allChildren
        exiting := exiting
        presentChildren := s.target
        forceRenders := s.forceRenders + 1
        globalCb := s.globalCb + 1 }
    else
      { s with
        allChildren := allChildren
        exiting := exiting
        presentChildren := s.target }
  else
    { s with
      allChildren := allChildren
      exiting := exiting
      presentChildren := presentChildren }

/-! ### The completion aggregator (`PresenceChild`) -/

/-- `presenceChildren : Map<string, boolean>` — registrant id ↦ done flag. -/
abbrev Registry := List (String × Bool)

/-- The re-arming `useMemo`: `presenceChildren.forEach((_, key) => presenceChildren.set(key, false))`. -/
def resetAll (m : Registry) : Registry :=
  m.map (fun p => (p.1, false))

/-- `context.register`: record the id as not yet done. -/
def register (m : Registry) (childId : String) : Registry :=
  mapSet m childId false

/-- The capability returned by `register`: remove the id entirely. -/
def unregister (m : Registry) (childId : String) : Registry :=
  mapDelete m childId

/-- `context.onExitComplete(childId)` (the spec's `reportDone`): mark the id
done, then fire the `PresenceChild`'s `onExitComplete` prop (the coordinator's
`onExit`) iff no registered id is still incomplete.  Returns the new registry
and whether the callback fired. -/
def reportDone (m : Registry) (childId : String) : Registry × Bool :=
  let m := mapSet m childId true
  (m, m.all (fun p => p.2))

/-- The rendered state of one `PresenceChild`: its registry, the `isPresent`
prop it last rendered with, and how often it fired its `onExitComplete` prop. -/
structure AggState where
  registry : Registry
  isPresent : Bool
  fires : Nat
deriving DecidableEq, Repr

/-- A re-render of `PresenceChild` with a (possibly) new `isPresent` prop: the
`useMemo` keyed on `[isPresent]` resets every registry entry to false when the
prop changed (before any nested participant runs), and the `useEffect` keyed on
`[isPresent]` then fires the exit-complete prop if the child is not present and
the registry is empty. -/
def pcUpdate (st : AggState) (newPresent : Bool) : AggState :=
  let changed := st.isPresent ≠ newPresent
  let registry := if changed then resetAll st.registry else st.registry
  let fire := changed ∧ newPresent = false ∧ registry.isEmpty
  { registry := registry
    isPresent := newPresent
    fires := st.fires + (if fire then 1 else 0) }

/-- A nested participant reporting done, wired through to the coordinator: if
the aggregator's check passes, the `PresenceChild`'s `onExitComplete` prop —
the coordinator's `onExit` closure for key `k` — runs. -/
def reportThroughOnce (agg : Registry) (co : CoordState) (k childId : String) :
    Registry × CoordState :=
  let r := reportDone agg childId
  (r.1, if r.2 then onExit co k else co)

/-! ### Association-list (JS `Map`) lemmas -/

lemma mapGet_mapSet_self (m : List (String × β)) (k : String) (v : β) :
    mapGet (mapSet m k v) k = some v := by
  induction m with
  | nil => simp [mapSet, mapGet]
  | cons p m ih =>
    obtain ⟨a, w⟩ := p
    by_cases h : a = k
    · simp [mapSet, mapGet, h]
    · simp [mapSet, mapGet, h, ih]

lemma mapGet_mapSet_ne (m : List (String × β)) {j k : String} (v : β) (h : j ≠ k) :
    mapGet (mapSet m k v) j = mapGet m j := by
  have hkj : ¬ k = j := fun hh => h hh.symm
  induction m with
  | nil => simp [mapSet, mapGet, hkj]
  | cons p m ih =>
    obtain ⟨a, w⟩ := p
    by_cases hak : a = k
    · subst hak
      simp [mapSet, mapGet, hkj]
    · simp [mapSet, mapGet, hak, ih]

lemma mapGet_mapDelete_self (m : List (String × β)) (k : String) :
    mapGet (mapDelete m k) k = none := by
  induction m with
  | nil => simp [mapDelete, mapGet]
  | cons p m ih =>
    obtain ⟨a, w⟩ := p
    by_cases h : a = k
    · subst h
      simpa [mapDelete, List.filter_cons] using ih
    · simp [mapDelete, List.filter_cons, mapGet, h] at ih ⊢
      exact ih

lemma mapGet_mapDelete_ne (m : List (String × β)) {j k : String} (h : j ≠ k) :
    mapGet (mapDelete m k) j = mapGet m j := by
  have hkj : ¬ k = j := fun hh => h hh.symm
  induction m with
  | nil => simp [mapDelete, mapGet]
  | cons p m ih =>
    obtain ⟨a, w⟩ := p
    simp only [mapDelete, ne_eq, decide_not] at ih ⊢
    by_cases hak : a = k
    · subst hak
      simp [List.filter_cons, mapGet, hkj, ih]
    · simp [List.filter_cons, mapGet, hak, ih]

lemma isSome_mapGet_mapSet (m : List (String × β)) (j k : String) (v : β)
    (h : (mapGet m j).isSome = true) : (mapGet (mapSet m k v) j).isSome = true := by
  by_cases hjk : j = k
  · subst hjk
    simp [mapGet_mapSet_self]
  · rwa [mapGet_mapSet_ne m v hjk]

lemma updateChildLookup_nil (m : List (String × Element)) :
    updateChildLookup [] m = m := rfl

lemma updateChildLookup_cons (c : Element) (t : List Element) (m : List (String × Element)) :
    updateChildLookup (c :: t) m = updateChildLookup t (mapSet m (getChildKey c) c) := rfl

lemma isSome_mapGet_updateChildLookup (t : List Element) (m : List (String × Element))
    (j : String) (h : (mapGet m j).isSome = true) :
    (mapGet (updateChildLookup t m) j).isSome = true := by
  induction t generalizing m with
  | nil => exact h
  | cons c t ih =>
    rw [updateChildLookup_cons]
    exact ih _ (isSome_mapGet_mapSet m j (getChildKey c) c h)

lemma mapGet_updateChildLookup_mem {t : List Element} {c : Element}
    (m : List (String × Element)) (hc : c ∈ t) :
    (mapGet (updateChildLookup t m) (getChildKey c)).isSome = true := by
  induction t generalizing m with
  | nil => cases hc
  | cons d t ih =>
    rw [updateChildLookup_cons]
    rcases List.mem_cons.mp hc with h | h
    · subst h
      rcases List.eq_nil_or_concat t with ht | _
      · subst ht
        simp [updateChildLookup_nil, mapGet_mapSet_self]
      · exact isSome_mapGet_updateChildLookup t _ _ (by simp [mapGet_mapSet_self])
    · exact ih _ h

/-! ### JS array primitive lemmas -/

lemma jsClampIndex_le (len : Nat) (s : Int) : jsClampIndex len s ≤ len := by
  unfold jsClampIndex
  split <;> omega

lemma jsClampIndex_ofNat (len n : Nat) : jsClampIndex len (n : Int) = min n len := by
  unfold jsClampIndex
  split <;> omega

lemma length_jsSpliceInsert (l : List α) (s : Int) (x : α) :
    (jsSpliceInsert l s x).length = l.length + 1 := by
  have h := jsClampIndex_le l.length s
  unfold jsSpliceInsert
  simp only [List.length_append, List.length_take, List.length_cons, List.length_drop]
  omega

lemma getElem?_jsSpliceInsert_lt {l : List α} {s : Int} {x : α} {p : Nat}
    (hp : p < jsClampIndex l.length s) :
    (jsSpliceInsert l s x)[p]? = l[p]? := by
  have hs := jsClampIndex_le l.length s
  unfold jsSpliceInsert
  rw [List.getElem?_append, if_pos (by simp only [List.length_take]; omega),
    List.getElem?_take, if_pos hp]

lemma getElem?_jsSpliceInsert_self (l : List α) (s : Int) (x : α) :
    (jsSpliceInsert l s x)[jsClampIndex l.length s]? = some x := by
  have hs := jsClampIndex_le l.length s
  unfold jsSpliceInsert
  rw [List.getElem?_append_right (by simp only [List.length_take]; omega)]
  have h1 : jsClampIndex l.length s - (List.take (jsClampIndex l.length s) l).length = 0 := by
    simp only [List.length_take]
    omega
  rw [h1]
  simp

lemma jsSpliceInsert_perm (l : List α) (s : Int) (x : α) :
    jsSpliceInsert l s x ~ x :: l := by
  unfold jsSpliceInsert
  refine List.perm_middle.trans ?_
  rw [List.take_append_drop]

lemma filter_jsSpliceInsert (l : List α) (s : Int) {x : α} {p : α → Bool} (hx : p x = false) :
    (jsSpliceInsert l s x).filter p = l.filter p := by
  unfold jsSpliceInsert
  rw [List.filter_append, List.filter_cons, if_neg (by simp [hx]), ← List.filter_append,
    List.take_append_drop]

lemma jsSpliceRemove1_sublist (l : List α) (s : Int) : jsSpliceRemove1 l s <+ l := by
  unfold jsSpliceRemove1
  have h : l.drop (jsClampIndex l.length s + 1) <+ l.drop (jsClampIndex l.length s) := by
    rw [← List.drop_drop]
    exact List.drop_sublist _ _
  calc l.take (jsClampIndex l.length s) ++ l.drop (jsClampIndex l.length s + 1)
      <+ l.take (jsClampIndex l.length s) ++ l.drop (jsClampIndex l.length s) :=
        h.append_left _
    _ = l := List.take_append_drop _ _

lemma jsFindIndex_neg_iff (p : α → Bool) (l : List α) :
    jsFindIndex p l < 0 ↔ ∀ x ∈ l, p x = false := by
  induction l with
  | nil => simp [jsFindIndex]
  | cons a l ih =>
    cases hpa : p a with
    | true => simp [jsFindIndex, hpa]
    | false =>
      constructor
      · intro h x hx
        rcases List.mem_cons.mp hx with rfl | hx'
        · exact hpa
        · refine ih.mp ?_ x hx'
          by_cases hr : jsFindIndex p l < 0
          · exact hr
          · exfalso
            simp only [jsFindIndex, hpa] at h
            rw [if_neg hr] at h
            omega
      · intro hall
        have hr : jsFindIndex p l < 0 :=
          ih.mpr (fun x hx => hall x (List.mem_cons_of_mem a hx))
        have hval : jsFindIndex p (a :: l) = -1 := by
          simp only [jsFindIndex, hpa]
          rw [if_neg (by simp), if_pos hr]
        rw [hval]
        omega

lemma jsFindIndex_lt_length (p : α → Bool) (l : List α) :
    jsFindIndex p l < (l.length : Int) := by
  induction l with
  | nil => simp [jsFindIndex]
  | cons a l ih =>
    cases hpa : p a with
    | true =>
      simp only [jsFindIndex, hpa, if_true, List.length_cons]
      omega
    | false =>
      simp only [jsFindIndex, hpa, List.length_cons]
      split <;> push_cast <;> omega

lemma posIn_lt_length {l : List String} {k : String} (h : k ∈ l) :
    posIn l k < l.length := by
  induction l with
  | nil => cases h
  | cons a l ih =>
    by_cases hak : a = k
    · simp [posIn, hak]
    · rcases List.mem_cons.mp h with h' | h'
      · exact absurd h'.symm hak
      · simp only [posIn, hak, if_false, List.length_cons]
        exact Nat.succ_lt_succ (ih h')

lemma jsIndexOf_eq_posIn {l : List String} {k : String} (h : k ∈ l) :
    jsIndexOf l k = (posIn l k : Int) := by
  induction l with
  | nil => cases h
  | cons a l ih =>
    by_cases hak : a = k
    · simp [jsIndexOf, jsFindIndex, posIn, hak]
    · have h' : k ∈ l := by
        rcases List.mem_cons.mp h with h' | h'
        · exact absurd h'.symm hak
        · exact h'
      have hnn : ¬ jsFindIndex (fun a => a == k) l < 0 := by
        rw [jsFindIndex_neg_iff]
        intro hall
        have := hall k h'
        simp at this
      have ihv := ih h'
      simp only [jsIndexOf] at ihv
      simp only [jsIndexOf, jsFindIndex, posIn]
      rw [if_neg (by simpa using hak), if_neg hnn, ihv, if_neg hak]
      push_cast
      ring

/-! ### Structure of the rendered output -/

lemma outputFold_nil (pkl tkl : List String) (ac : List (String × Element)) (base : List RNode) :
    outputFold pkl tkl ac [] base = base := rfl

lemma outputFold_cons (pkl tkl : List String) (ac : List (String × Element)) (k : String)
    (ex : List String) (base : List RNode) :
    outputFold pkl tkl ac (k :: ex) base =
      outputFold pkl tkl ac ex
        (if k ∈ tkl then base
         else
           match mapGet ac k with
           | none => base
           | some child => jsSpliceInsert base (jsIndexOf pkl k) (exNode k child)) := by
  rw [outputFold, List.foldl_cons]
  rfl

/-- The exiting wrappers the splicing loop actually inserts, in loop order. -/
def insertedNodes (pkl tkl : List String) (ac : List (String × Element)) (ex : List String) :
    List RNode :=
  ex.filterMap (fun k => if k ∈ tkl then none else (mapGet ac k).map (exNode k))

lemma outputFold_perm (pkl tkl : List String) (ac : List (String × Element)) (ex : List String)
    (base : List RNode) :
    outputFold pkl tkl ac ex base ~ insertedNodes pkl tkl ac ex ++ base := by
  induction ex generalizing base with
  | nil => simp [outputFold_nil, insertedNodes]
  | cons k ex ih =>
    rw [outputFold_cons]
    by_cases hk : k ∈ tkl
    · rw [if_pos hk]
      have he : insertedNodes pkl tkl ac (k :: ex) = insertedNodes pkl tkl ac ex := by
        simp [insertedNodes, List.filterMap_cons, hk]
      rw [he]
      exact ih base
    · rw [if_neg hk]
      cases hget : mapGet ac k with
      | none =>
        have he : insertedNodes pkl tkl ac (k :: ex) = insertedNodes pkl tkl ac ex := by
          simp [insertedNodes, List.filterMap_cons, hk, hget]
        rw [he]
        exact ih base
      | some c =>
        have he : insertedNodes pkl tkl ac (k :: ex)
            = exNode k c :: insertedNodes pkl tkl ac ex := by
          simp [insertedNodes, List.filterMap_cons, hk, hget]
        rw [he, List.cons_append]
        exact (ih _).trans
          ((List.Perm.append_left _ (jsSpliceInsert_perm base _ _)).trans List.perm_middle)

lemma mem_outputFold {pkl tkl : List String} {ac : List (String × Element)} {ex : List String}
    {base : List RNode} {rn : RNode} :
    rn ∈ outputFold pkl tkl ac ex base ↔ rn ∈ insertedNodes pkl tkl ac ex ∨ rn ∈ base := by
  rw [(outputFold_perm pkl tkl ac ex base).mem_iff, List.mem_append]

lemma mem_insertedNodes {pkl tkl : List String} {ac : List (String × Element)} {ex : List String}
    {rn : RNode} (h : rn ∈ insertedNodes pkl tkl ac ex) :
    rn.key ∈ ex ∧ rn.key ∉ tkl ∧ mapGet ac rn.key = some rn.child ∧
      rn.isPresent = false ∧ rn.hasExitCb = true := by
  simp only [insertedNodes, List.mem_filterMap] at h
  obtain ⟨k, hk, hf⟩ := h
  by_cases hkt : k ∈ tkl
  · rw [if_pos hkt] at hf
    cases hf
  · rw [if_neg hkt] at hf
    cases hget : mapGet ac k with
    | none =>
      rw [hget] at hf
      cases hf
    | some c =>
      rw [hget] at hf
      obtain rfl : exNode k c = rn := by simpa using hf
      exact ⟨hk, hkt, hget, rfl, rfl⟩

lemma insertedNodes_keys_sublist (pkl tkl : List String) (ac : List (String × Element))
    (ex : List String) :
    (insertedNodes pkl tkl ac ex).map (fun rn => rn.key) <+ ex := by
  induction ex with
  | nil => simp [insertedNodes]
  | cons k ex ih =>
    by_cases hk : k ∈ tkl
    · have he : insertedNodes pkl tkl ac (k :: ex) = insertedNodes pkl tkl ac ex := by
        simp [insertedNodes, List.filterMap_cons, hk]
      rw [he]
      exact ih.cons k
    · cases hget : mapGet ac k with
      | none =>
        have he : insertedNodes pkl tkl ac (k :: ex) = insertedNodes pkl tkl ac ex := by
          simp [insertedNodes, List.filterMap_cons, hk, hget]
        rw [he]
        exact ih.cons k
      | some c =>
        have he : insertedNodes pkl tkl ac (k :: ex)
            = exNode k c :: insertedNodes pkl tkl ac ex := by
          simp [insertedNodes, List.filterMap_cons, hk, hget]
        rw [he, List.map_cons]
        exact ih.cons₂ k

lemma length_outputFold_ge (pkl tkl : List String) (ac : List (String × Element))
    (ex : List String) (base : List RNode) :
    base.length ≤ (outputFold pkl tkl ac ex base).length := by
  induction ex generalizing base with
  | nil => exact Nat.le_refl _
  | cons k ex ih =>
    rw [outputFold_cons]
    by_cases hk : k ∈ tkl
    · rw [if_pos hk]
      exact ih base
    · rw [if_neg hk]
      cases hget : mapGet ac k with
      | none => exact ih base
      | some c =>
        have h1 := ih (jsSpliceInsert base (jsIndexOf pkl k) (exNode k c))
        rw [length_jsSpliceInsert] at h1
        exact Nat.le_trans (Nat.le_succ _) h1

/-! ### The diff (`computeExiting`) -/

lemma computeExiting_mem {tkl : List String} :
    ∀ (pkl ex0 : List String) {j : String},
      j ∈ pkl.foldl
        (fun ex k => if k ∈ tkl then ex else if k ∈ ex then ex else ex ++ [k]) ex0 →
      j ∈ ex0 ∨ (j ∈ pkl ∧ j ∉ tkl) := by
  intro pkl
  induction pkl with
  | nil =>
    intro ex0 j h
    exact Or.inl h
  | cons a pkl ih =>
    intro ex0 j h
    rw [List.foldl_cons] at h
    by_cases ha : a ∈ tkl
    · rw [if_pos ha] at h
      rcases ih ex0 h with h' | h'
      · exact Or.inl h'
      · exact Or.inr ⟨List.mem_cons_of_mem a h'.1, h'.2⟩
    · rw [if_neg ha] at h
      by_cases hae : a ∈ ex0
      · rw [if_pos hae] at h
        rcases ih ex0 h with h' | h'
        · exact Or.inl h'
        · exact Or.inr ⟨List.mem_cons_of_mem a h'.1, h'.2⟩
      · rw [if_neg hae] at h
        rcases ih (ex0 ++ [a]) h with h' | h'
        · rcases List.mem_append.mp h' with h'' | h''
          · exact Or.inl h''
          · rw [List.mem_singleton] at h''
            exact Or.inr ⟨h'' ▸ List.mem_cons_self a pkl, h'' ▸ ha⟩
        · exact Or.inr ⟨List.mem_cons_of_mem a h'.1, h'.2⟩

lemma mem_computeExiting {pkl tkl : List String} {j : String} (h : j ∈ computeExiting pkl tkl) :
    j ∈ pkl ∧ j ∉ tkl := by
  rcases computeExiting_mem pkl [] h with h' | h'
  · cases h'
  · exact h'

lemma computeExiting_nodup (pkl tkl : List String) : (computeExiting pkl tkl).Nodup := by
  have aux : ∀ (pk ex0 : List String), ex0.Nodup →
      (pk.foldl (fun ex k => if k ∈ tkl then ex else if k ∈ ex then ex else ex ++ [k])
        ex0).Nodup := by
    intro pk
    induction pk with
    | nil => exact fun ex0 h => h
    | cons a pk ih =>
      intro ex0 h0
      rw [List.foldl_cons]
      by_cases ha : a ∈ tkl
      · rw [if_pos ha]
        exact ih ex0 h0
      · rw [if_neg ha]
        by_cases hae : a ∈ ex0
        · rw [if_pos hae]
          exact ih ex0 h0
        · rw [if_neg hae]
          refine ih (ex0 ++ [a]) ?_
          simp [List.nodup_append, h0, hae, List.disjoint_singleton]
  exact aux pkl [] List.nodup_nil

lemma computeExiting_eq_nil {pkl tkl : List String} (h : ∀ k ∈ pkl, k ∈ tkl) :
    computeExiting pkl tkl = [] := by
  have aux : ∀ (pk ex0 : List String), (∀ k ∈ pk, k ∈ tkl) →
      pk.foldl (fun ex k => if k ∈ tkl then ex else if k ∈ ex then ex else ex ++ [k]) ex0
        = ex0 := by
    intro pk
    induction pk with
    | nil => exact fun ex0 _ => rfl
    | cons a pk ih =>
      intro ex0 hall
      rw [List.foldl_cons, if_pos (hall a (List.mem_cons_self a pk))]
      exact ih ex0 (fun k hk => hall k (List.mem_cons_of_mem a hk))
  exact aux pkl [] h

lemma computeExiting_eq_filter {pkl tkl : List String} (hnd : pkl.Nodup) :
    computeExiting pkl tkl = pkl.filter (fun k => !(decide (k ∈ tkl))) := by
  have main : ∀ (pk ex0 : List String), pk.Nodup → (∀ k ∈ pk, k ∉ ex0) →
      pk.foldl (fun ex k => if k ∈ tkl then ex else if k ∈ ex then ex else ex ++ [k]) ex0
        = ex0 ++ pk.filter (fun k => !(decide (k ∈ tkl))) := by
    intro pk
    induction pk with
    | nil => simp
    | cons a pk ih =>
      intro ex0 hnd' hdis
      rw [List.foldl_cons]
      by_cases ha : a ∈ tkl
      · rw [if_pos ha, ih ex0 hnd'.of_cons (fun k hk => hdis k (List.mem_cons_of_mem a hk))]
        simp [List.filter_cons, ha]
      · rw [if_neg ha, if_neg (hdis a (List.mem_cons_self a pk)),
          ih (ex0 ++ [a]) hnd'.of_cons ?_]
        · simp [List.filter_cons, ha]
        · intro k hk
          simp only [List.mem_append, List.mem_singleton]
          push_neg
          refine ⟨hdis k (List.mem_cons_of_mem a hk), fun he => ?_⟩
          exact (List.nodup_cons.mp hnd').1 (he ▸ hk)
  simpa using main pkl [] hnd (by simp)

/-! ### Positions (`posIn`) and the splice-position argument -/

lemma posIn_get {l : List String} (hnd : l.Nodup) :
    ∀ (i : Nat) (h : i < l.length), posIn l (l.get ⟨i, h⟩) = i := by
  induction l with
  | nil => intro i h; cases h
  | cons a l ih =>
    intro i h
    cases i with
    | zero => simp [posIn]
    | succ i =>
      have hmem : l.get ⟨i, Nat.lt_of_succ_lt_succ h⟩ ∈ l := List.get_mem _ _ _
      have hne : ¬ a = l.get ⟨i, Nat.lt_of_succ_lt_succ h⟩ :=
        fun he => (List.nodup_cons.mp hnd).1 (he ▸ hmem)
      simp only [List.get_cons_succ, posIn, if_neg hne]
      rw [ih (List.nodup_cons.mp hnd).2]

lemma pairwise_posIn_lt {l : List String} (hnd : l.Nodup) :
    List.Pairwise (fun a b => posIn l a < posIn l b) l := by
  rw [List.pairwise_iff_get]
  intro i j hij
  rw [posIn_get hnd i.1 i.2, posIn_get hnd j.1 j.2]
  exact hij

lemma outputFold_getElem?_of_lt (pkl tkl : List String) (ac : List (String × Element))
    (ex : List String) :
    ∀ (base : List RNode) (p : Nat), p < base.length →
      (∀ k ∈ ex, (p : Int) < jsIndexOf pkl k) →
      (outputFold pkl tkl ac ex base)[p]? = base[p]? := by
  induction ex with
  | nil => intro base p _ _; rfl
  | cons k ex ih =>
    intro base p hp hall
    rw [outputFold_cons]
    by_cases hk : k ∈ tkl
    · rw [if_pos hk]
      exact ih base p hp (fun j hj => hall j (List.mem_cons_of_mem k hj))
    · rw [if_neg hk]
      cases hget : mapGet ac k with
      | none => exact ih base p hp (fun j hj => hall j (List.mem_cons_of_mem k hj))
      | some c =>
        have hidx : (p : Int) < jsIndexOf pkl k := hall k (List.mem_cons_self k ex)
        have hclamp : p < jsClampIndex base.length (jsIndexOf pkl k) := by
          unfold jsClampIndex
          split <;> omega
        have h1 := ih (jsSpliceInsert base (jsIndexOf pkl k) (exNode k c)) p
          (by rw [length_jsSpliceInsert]; omega)
          (fun j hj => hall j (List.mem_cons_of_mem k hj))
        rw [h1, getElem?_jsSpliceInsert_lt hclamp]

lemma outputFold_getElem_posIn (pkl tkl : List String) (ac : List (String × Element)) :
    ∀ (ex : List String) (base : List RNode),
      List.Pairwise (fun a b => posIn pkl a < posIn pkl b) ex →
      (∀ k ∈ ex, k ∈ pkl ∧ k ∉ tkl ∧ (mapGet ac k).isSome = true) →
      (∀ i k, ex[i]? = some k → posIn pkl k ≤ base.length + i) →
      ∀ k ∈ ex, ∀ c, mapGet ac k = some c →
        (outputFold pkl tkl ac ex base)[posIn pkl k]? = some (exNode k c) := by
  intro ex
  induction ex with
  | nil => intro base _ _ _ k hk; cases hk
  | cons k0 ex ih =>
    intro base hasc hmem hbnd k hk c hc
    obtain ⟨hk0p, hk0t, hk0s⟩ := hmem k0 (List.mem_cons_self k0 ex)
    obtain ⟨c0, hc0⟩ := Option.isSome_iff_exists.mp hk0s
    have hstep : outputFold pkl tkl ac (k0 :: ex) base
        = outputFold pkl tkl ac ex (jsSpliceInsert base (jsIndexOf pkl k0) (exNode k0 c0)) := by
      rw [outputFold_cons, if_neg hk0t, hc0]
    rw [hstep]
    have hbnd0 : posIn pkl k0 ≤ base.length := by
      have := hbnd 0 k0 (by simp)
      omega
    rcases List.mem_cons.mp hk with rfl | hk'
    · obtain rfl : c = c0 := by
        rw [hc0] at hc
        exact (Option.some.inj hc).symm
      have hall : ∀ j ∈ ex, ((posIn pkl k : Int)) < jsIndexOf pkl j := by
        intro j hj
        have h1 : posIn pkl k < posIn pkl j := (List.pairwise_cons.mp hasc).1 j hj
        have h2 : j ∈ pkl := (hmem j (List.mem_cons_of_mem k hj)).1
        rw [jsIndexOf_eq_posIn h2]
        exact_mod_cast h1
      have hpres := outputFold_getElem?_of_lt pkl tkl ac ex
        (jsSpliceInsert base (jsIndexOf pkl k) (exNode k c)) (posIn pkl k)
        (by rw [length_jsSpliceInsert]; omega) hall
      rw [hpres]
      have hcl : jsClampIndex base.length (jsIndexOf pkl k) = posIn pkl k := by
        rw [jsIndexOf_eq_posIn hk0p, jsClampIndex_ofNat]
        omega
      rw [← hcl]
      exact getElem?_jsSpliceInsert_self base _ _
    · refine ih (jsSpliceInsert base (jsIndexOf pkl k0) (exNode k0 c0))
        (List.pairwise_cons.mp hasc).2
        (fun j hj => hmem j (List.mem_cons_of_mem k0 hj)) ?_ k hk' c hc
      intro i j hij
      have := hbnd (i + 1) j (by rwa [List.getElem?_cons_succ])
      rw [length_jsSpliceInsert]
      omega

lemma filter_getElem?_posIn_bound (q : String → Bool) :
    ∀ (l : List String), l.Nodup →
      ∀ (i : Nat) (k : String), (l.filter q)[i]? = some k →
        posIn l k ≤ (l.filter (fun x => !(q x))).length + i := by
  intro l
  induction l with
  | nil =>
    intro _ i k h
    simp at h
  | cons a l ih =>
    intro hnd i k hik
    have hnd' := (List.nodup_cons.mp hnd).2
    have hanotin := (List.nodup_cons.mp hnd).1
    have hmemtail : ∀ {j : Nat}, (l.filter q)[j]? = some k → k ∈ l := by
      intro j hj
      obtain ⟨hlt, hget⟩ := List.getElem?_eq_some.mp hj
      exact List.mem_of_mem_filter (hget ▸ List.getElem_mem hlt)
    cases hqa : q a with
    | true =>
      rw [List.filter_cons, if_pos (by simp [hqa])] at hik
      cases i with
      | zero =>
        obtain rfl : a = k := by simpa using hik
        simp [posIn, List.filter_cons, hqa]
      | succ i =>
        rw [List.getElem?_cons_succ] at hik
        have hka : ¬ a = k := fun he => hanotin (he ▸ hmemtail hik)
        have hih := ih hnd' i k hik
        rw [List.filter_cons, if_neg (by simp [hqa])]
        simp only [posIn, if_neg hka]
        omega
    | false =>
      rw [List.filter_cons, if_neg (by simp [hqa])] at hik
      have hka : ¬ a = k := fun he => hanotin (he ▸ hmemtail hik)
      have hih := ih hnd' i k hik
      rw [List.filter_cons, if_pos (by simp [hqa]), List.length_cons]
      simp only [posIn, if_neg hka]
      omega

lemma length_filter_mem_le (l tk : List String) (hnd : l.Nodup) :
    (l.filter (fun x => decide (x ∈ tk))).length ≤ tk.length := by
  have h1 : (l.filter (fun x => decide (x ∈ tk))).Nodup := hnd.filter _
  have h2 : l.filter (fun x => decide (x ∈ tk)) ⊆ tk := by
    intro x hx
    simpa using List.of_mem_filter hx
  exact (List.subperm_of_subset h1 h2).length_le

lemma renderPass_not_initial (s : CoordState) (t : List Element)
    (h : s.isInitialRender = false) :
    renderPass s t =
      { s with
        allChildren := updateChildLookup t s.allChildren
        presentChildren :=
          (buildOutput (computeExiting (s.presentChildren.map getChildKey) (t.map getChildKey))
            (s.presentChildren.map getChildKey) (t.map getChildKey) s.allChildren t).map
            RNode.toElement
        exiting := computeExiting (s.presentChildren.map getChildKey) (t.map getChildKey)
        target := t
        rendered := buildOutput (computeExiting (s.presentChildren.map getChildKey)
          (t.map getChildKey)) (s.presentChildren.map getChildKey) (t.map getChildKey)
          s.allChildren t } := by
  rw [renderPass, if_neg (by simp [h])]

/-! ### Concrete elements used by witnesses and counterexamples -/

def ea : Element := { key := some "a", id := 0 }

def eb : Element := { key := some "b", id := 1 }

def ec : Element := { key := some "c", id := 2 }

/-- **C5**: on every non-first evaluation pass, each exiting key's last-known
descriptor is spliced into the output sequence, wrapped `isPresent = false`
with an exit callback, at the index the key held in the committed-present key
sequence (`presentKeys`) — so exiting nodes keep the relative position they
last held among their siblings.  Hypotheses: the committed keys are distinct
(the documented caller contract) and every exiting key has a descriptor (the
spec's known-children invariant). -/
theorem c5_exit_position_preserved (s : CoordState) (t : List Element) (k : String) (c : Element)
    (hinit : s.isInitialRender = false)
    (hnd : (s.presentChildren.map getChildKey).Nodup)
    (hkp : k ∈ s.presentChildren.map getChildKey)
    (hkt : k ∉ t.map getChildKey)
    (hc : mapGet s.allChildren k = some c)
    (hall : ∀ j ∈ s.presentChildren.map getChildKey, j ∉ t.map getChildKey →
      (mapGet s.allChildren j).isSome = true) :
    (renderPass s t).rendered[posIn (s.presentChildren.map getChildKey) k]?
      = some (exNode k c) := by
  have hrw := renderPass_not_initial s t hinit
  rw [hrw]
  rw [buildOutput]
  have hexeq : computeExiting (s.presentChildren.map getChildKey) (t.map getChildKey)
      = (s.presentChildren.map getChildKey).filter
          (fun j => !(decide (j ∈ t.map getChildKey))) :=
    computeExiting_eq_filter hnd
  refine outputFold_getElem_posIn (s.presentChildren.map getChildKey) (t.map getChildKey)
    s.allChildren _ (t.map presentNode) ?_ ?_ ?_ k ?_ c hc
  · rw [hexeq]
    exact List.Pairwise.sublist (List.filter_sublist _) (pairwise_posIn_lt hnd)
  · intro j hj
    obtain ⟨hjp, hjt⟩ := mem_computeExiting hj
    exact ⟨hjp, hjt, hall j hjp hjt⟩
  · intro i j hij
    rw [hexeq] at hij
    have hb := filter_getElem?_posIn_bound (fun j => !(decide (j ∈ t.map getChildKey)))
      (s.presentChildren.map getChildKey) hnd i j hij
    have hfe : (s.presentChildren.map getChildKey).filter
          (fun x => !(!(decide (x ∈ t.map getChildKey))))
        = (s.presentChildren.map getChildKey).filter
          (fun x => decide (x ∈ t.map getChildKey)) := by
      simp only [Bool.not_not]
    rw [hfe] at hb
    have hle := length_filter_mem_le (s.presentChildren.map getChildKey)
      (t.map getChildKey) hnd
    simp only [List.length_map] at hle ⊢
    omega
  · rw [hexeq, List.mem_filter]
    exact ⟨hkp, by simpa using hkt⟩

/-- Witness for C5 at the spec's Scenario A: committed children `[a, b, c]`,
target `[a, c]` — `b` is rendered exiting at index 1. -/
theorem c5_exit_position_preserved_witness :
    (renderPass (renderPass CoordState.init [ea, eb, ec]) [ea, ec]).rendered[1]?
      = some (exNode "b" eb) := by
  have h := c5_exit_position_preserved (renderPass CoordState.init [ea, eb, ec]) [ea, ec]
    "b" eb (by decide) (by decide) (by decide) (by decide) (by decide) (by decide)
  have he : posIn ((renderPass CoordState.init [ea, eb, ec]).presentChildren.map getChildKey)
      "b" = 1 := by decide
  rw [he] at h
  exact h

/-! ### Projections of `onExit` through its branches -/

lemma onExit_allChildren (s : CoordState) (k : String) :
    (onExit s k).allChildren = mapDelete s.allChildren k := by
  rw [onExit]
  split
  · split <;> rfl
  · rfl

lemma onExit_exiting (s : CoordState) (k : String) :
    (onExit s k).exiting = s.exiting.filter (fun j => j ≠ k) := by
  rw [onExit]
  split
  · split <;> rfl
  · rfl

lemma onExit_target (s : CoordState) (k : String) : (onExit s k).target = s.target := by
  rw [onExit]
  split
  · split <;> rfl
  · rfl

lemma onExit_rendered (s : CoordState) (k : String) : (onExit s k).rendered = s.rendered := by
  rw [onExit]
  split
  · split <;> rfl
  · rfl

lemma onExit_mounted (s : CoordState) (k : String) : (onExit s k).mounted = s.mounted := by
  rw [onExit]
  split
  · split <;> rfl
  · rfl

lemma onExit_isInitialRender (s : CoordState) (k : String) :
    (onExit s k).isInitialRender = s.isInitialRender := by
  rw [onExit]
  split
  · split <;> rfl
  · rfl

lemma onExit_presentChildren_drain (s : CoordState) (k : String)
    (h : s.exiting.filter (fun j => j ≠ k) = []) :
    (onExit s k).presentChildren = s.target := by
  rw [onExit]
  rw [if_pos (List.isEmpty_iff.mpr h)]
  split <;> rfl

lemma onExit_presentChildren_nondrain (s : CoordState) (k : String)
    (h : s.exiting.filter (fun j => j ≠ k) ≠ []) :
    (onExit s k).presentChildren
      = jsSpliceRemove1 s.presentChildren
          (jsFindIndex (fun child => child.key == some k) s.presentChildren) := by
  rw [onExit]
  rw [if_neg (fun hc => h (List.isEmpty_iff.mp hc))]

lemma onExit_counts_drain_mounted (s : CoordState) (k : String)
    (h : s.exiting.filter (fun j => j ≠ k) = []) (hm : s.mounted = true) :
    (onExit s k).forceRenders = s.forceRenders + 1 ∧ (onExit s k).globalCb = s.globalCb + 1 := by
  rw [onExit]
  rw [if_pos (List.isEmpty_iff.mpr h), if_pos hm]
  exact ⟨rfl, rfl⟩

lemma onExit_counts_drain_unmounted (s : CoordState) (k : String)
    (h : s.exiting.filter (fun j => j ≠ k) = []) (hm : s.mounted = false) :
    (onExit s k).forceRenders = s.forceRenders ∧ (onExit s k).globalCb = s.globalCb := by
  rw [onExit]
  rw [if_pos (List.isEmpty_iff.mpr h), if_neg (by simp [hm])]
  exact ⟨rfl, rfl⟩

lemma onExit_counts_nondrain (s : CoordState) (k : String)
    (h : s.exiting.filter (fun j => j ≠ k) ≠ []) :
    (onExit s k).forceRenders = s.forceRenders ∧ (onExit s k).globalCb = s.globalCb := by
  rw [onExit]
  rw [if_neg (fun hc => h (List.isEmpty_iff.mp hc))]
  exact ⟨rfl, rfl⟩

lemma mapSet_mapSet_self (m : List (String × β)) (k : String) (v w : β) :
    mapSet (mapSet m k v) k w = mapSet m k w := by
  induction m with
  | nil => simp [mapSet]
  | cons p m ih =>
    obtain ⟨a, u⟩ := p
    by_cases h : a = k
    · simp [mapSet, h]
    · simp [mapSet, h, ih]

/-! ### C10 — unkeyed children alias to the empty-string key -/

/-- **C10**: every child whose key is absent (or the falsy empty string) is
assigned the key `""` by `getChildKey`, so two unkeyed children in one pass
alias to a single identity in the known-children table — the later one wins —
and a single unkeyed child is tracked under `""`. -/
theorem c10_unkeyed_children_alias (c1 c2 : Element)
    (h1 : c1.key = none ∨ c1.key = some "") (h2 : c2.key = none ∨ c2.key = some "") :
    getChildKey c1 = "" ∧ getChildKey c2 = "" ∧
      updateChildLookup [c1, c2] [] = [("", c2)] ∧
      mapGet (updateChildLookup [c1] []) "" = some c1 := by
  have g1 : getChildKey c1 = "" := by
    rcases h1 with h | h <;> simp [getChildKey, h]
  have g2 : getChildKey c2 = "" := by
    rcases h2 with h | h <;> simp [getChildKey, h]
  refine ⟨g1, g2, ?_, ?_⟩
  · rw [updateChildLookup_cons, updateChildLookup_cons, updateChildLookup_nil, g1, g2]
    simp [mapSet]
  · rw [updateChildLookup_cons, updateChildLookup_nil, g1]
    simp [mapSet, mapGet]

/-- Witness for C10: a key-less child and an empty-string-keyed child. -/
theorem c10_unkeyed_children_alias_witness :
    getChildKey ({ key := none, id := 5 } : Element) = "" ∧
      getChildKey ({ key := some "", id := 6 } : Element) = "" ∧
      updateChildLookup [{ key := none, id := 5 }, { key := some "", id := 6 }] []
        = [("", { key := some "", id := 6 })] ∧
      mapGet (updateChildLookup [{ key := none, id := 5 }] []) ""
        = some { key := none, id := 5 } :=
  c10_unkeyed_children_alias { key := none, id := 5 } { key := some "", id := 6 }
    (Or.inl rfl) (Or.inr rfl)

/-! ### C4 — zero-registrant immediate completion -/

/-- **C4**: for an exiting key whose registration registry has zero entries at
the first scheduling opportunity after `isPresent` becomes false, the
aggregator's completion fires (exactly one new firing, from the `useEffect`
alone) without any external `reportDone` call and without another pass. -/
theorem c4_zero_registrant_shortcut (st : AggState)
    (hpres : st.isPresent = true) (hreg : st.registry = []) :
    (pcUpdate st false).fires = st.fires + 1 ∧ (pcUpdate st false).registry = [] := by
  rw [pcUpdate]
  simp [hpres, hreg, resetAll]

/-- Witness for C4: a present child with an empty registry flips to exiting. -/
theorem c4_zero_registrant_shortcut_witness :
    (pcUpdate { registry := [], isPresent := true, fires := 0 } false).fires = 0 + 1 ∧
      (pcUpdate { registry := [], isPresent := true, fires := 0 } false).registry = [] :=
  c4_zero_registrant_shortcut { registry := [], isPresent := true, fires := 0 } rfl rfl

/-! ### C8 — when the registry is re-armed -/

/-- **C8 counterexample**: the registry is reset on an exiting→present flip
too.  A completed entry `("p", true)` is reset to `("p", false)` when
`isPresent` flips from `false` to `true`, so the reset does not happen
*exactly* when `isPresent` flips from present to exiting. -/
theorem c8_reset_on_reentry_flip :
    (pcUpdate { registry := [("p", true)], isPresent := false, fires := 0 } true).registry
      = [("p", false)] := by decide

/-- **C8 (amended)**: the registry is reset to all-false exactly when the
rendered `isPresent` prop *changes* — in either direction, not only
present→exiting — before any nested participant runs; a pass with unchanged
`isPresent` leaves it untouched, and `register`/`reportDone`/`unregister`
never modify entries other than their own id. -/
theorem c8_registry_reset_amended (st : AggState) (b : Bool) (m : Registry) (id j : String) :
    (st.isPresent ≠ b → (pcUpdate st b).registry = resetAll st.registry) ∧
    (st.isPresent = b → (pcUpdate st b).registry = st.registry) ∧
    (j ≠ id →
      mapGet (register m id) j = mapGet m j ∧
      mapGet (reportDone m id).1 j = mapGet m j ∧
      mapGet (unregister m id) j = mapGet m j) := by
  refine ⟨?_, ?_, ?_⟩
  · intro h
    rw [pcUpdate]
    simp [h]
  · intro h
    rw [pcUpdate]
    simp [h]
  · intro h
    exact ⟨mapGet_mapSet_ne m false h, mapGet_mapSet_ne m true h, mapGet_mapDelete_ne m h⟩

/-- Witness for C8 (amended): a flip resets, an unchanged pass does not, and a
`register` for `"p"` leaves `"q"`'s entry alone. -/
theorem c8_registry_reset_amended_witness :
    (pcUpdate { registry := [("p", true)], isPresent := true, fires := 0 } false).registry
        = resetAll [("p", true)] ∧
      (pcUpdate { registry := [("p", true)], isPresent := true, fires := 0 } true).registry
        = [("p", true)] ∧
      mapGet (register [("q", true)] "p") "q" = some true := by
  obtain ⟨h1, -, -⟩ :=
    c8_registry_reset_amended { registry := [("p", true)], isPresent := true, fires := 0 }
      false [("q", true)] "p" "q"
  obtain ⟨-, h2, h3⟩ :=
    c8_registry_reset_amended { registry := [("p", true)], isPresent := true, fires := 0 }
      true [("q", true)] "p" "q"
  refine ⟨h1 (by decide), h2 rfl, ?_⟩
  rw [(h3 (by decide)).1]
  decide

lemma jsSpliceRemove1_zero (a : α) (l : List α) : jsSpliceRemove1 (a :: l) 0 = l := by
  unfold jsSpliceRemove1 jsClampIndex
  simp

lemma jsSpliceRemove1_cons_succ (a : α) (l : List α) (r : Int) (hr : 0 ≤ r) :
    jsSpliceRemove1 (a :: l) (r + 1) = a :: jsSpliceRemove1 l r := by
  unfold jsSpliceRemove1 jsClampIndex
  have h1 : ¬ r + 1 < 0 := by omega
  have h2 : ¬ r < 0 := by omega
  rw [if_neg h1, if_neg h2]
  have h3 : (r + 1).toNat = r.toNat + 1 := by omega
  rw [h3]
  have h4 : min (r.toNat + 1) (a :: l).length = min r.toNat l.length + 1 := by
    simp only [List.length_cons]
    omega
  rw [h4]
  simp only [List.take_succ_cons, List.drop_succ_cons, List.cons_append]

/-- The committed-sequence removal in `onExit`: when the committed keys are
distinct and the element carrying key `k` really uses the React key `some k`,
the `findIndex`/`splice` pair removes exactly that element. -/
lemma spliceRemove_find_eq_filter (l : List Element) (k : String)
    (hnd : (l.map getChildKey).Nodup)
    (hwrap : ∀ e ∈ l, getChildKey e = k → e.key = some k)
    (hmem : k ∈ l.map getChildKey) :
    jsSpliceRemove1 l (jsFindIndex (fun child => child.key == some k) l)
      = l.filter (fun e => !(e.key == some k)) := by
  induction l with
  | nil => simp at hmem
  | cons e0 l ih =>
    rw [List.map_cons] at hnd hmem
    by_cases h0 : e0.key = some k
    · have hk0 : getChildKey e0 = k := by simp [getChildKey, h0]
      have hfi : jsFindIndex (fun child => child.key == some k) (e0 :: l) = 0 := by
        simp [jsFindIndex, h0]
      rw [hfi, jsSpliceRemove1_zero, List.filter_cons, if_neg (by simp [h0])]
      have hnotin : getChildKey e0 ∉ l.map getChildKey := (List.nodup_cons.mp hnd).1
      refine (List.filter_eq_self.mpr (fun e he => ?_)).symm
      by_cases hek : e.key = some k
      · exfalso
        have hgk : getChildKey e = k := by simp [getChildKey, hek]
        exact hnotin (hk0 ▸ (hgk ▸ List.mem_map_of_mem getChildKey he))
      · simp [hek]
    · have hbe : (e0.key == some k) = false := by simp [h0]
      have hmem' : k ∈ l.map getChildKey := by
        rcases List.mem_cons.mp hmem with h | h
        · exact absurd (hwrap e0 (List.mem_cons_self e0 l) h.symm) h0
        · exact h
      obtain ⟨e1, he1, hge1⟩ := List.mem_map.mp hmem'
      have he1k : e1.key = some k := hwrap e1 (List.mem_cons_of_mem e0 he1) hge1
      have hfpos : ¬ jsFindIndex (fun child => child.key == some k) l < 0 := by
        rw [jsFindIndex_neg_iff]
        intro hall
        have := hall e1 he1
        rw [he1k] at this
        simp at this
      have hfi : jsFindIndex (fun child => child.key == some k) (e0 :: l)
          = jsFindIndex (fun child => child.key == some k) l + 1 := by
        simp only [jsFindIndex, hbe]
        rw [if_neg (by simp), if_neg hfpos]
      rw [hfi, jsSpliceRemove1_cons_succ _ _ _ (by omega), List.filter_cons,
        if_pos (by simp [hbe])]
      rw [ih (List.nodup_cons.mp hnd).2
        (fun e he hgk => hwrap e (List.mem_cons_of_mem e0 he) hgk) hmem']

/-! ### C1 — double `reportDone` -/

/-- A coordinator mid-exit: keys `b` and `c` are both exiting, with live exit
callbacks, after a pass whose target dropped both. -/
def co0 : CoordState :=
  { isInitialRender := false
    mounted := true
    allChildren := [("b", eb), ("c", ec)]
    presentChildren := [{ key := some "b", id := 1 }, { key := some "c", id := 2 }]
    exiting := ["b", "c"]
    target := []
    rendered := [exNode "b" eb, exNode "c" ec]
    forceRenders := 0
    globalCb := 0 }

/-- A single registrant `"p"` of `b`'s aggregator, not yet done. -/
def agg0 : Registry := [("p", false)]

/-- **C1 counterexample**: with keys `b` and `c` exiting and a single
registrant of `b`'s aggregator, reporting done twice for the same id fires the
aggregator's completion callback toward the coordinator on *both* calls (not
exactly once), and the second run of the coordinator's `onExit` splices the
last element (`c`'s descriptor!) out of the committed-present sequence — the
observable coordinator state differs from a single report. -/
theorem c1_double_report_not_idempotent :
    (reportThroughOnce (reportThroughOnce agg0 co0 "b" "p").1
        (reportThroughOnce agg0 co0 "b" "p").2 "b" "p").2.presentChildren
      ≠ (reportThroughOnce agg0 co0 "b" "p").2.presentChildren ∧
    (reportDone agg0 "p").2 = true ∧
    (reportDone (reportThroughOnce agg0 co0 "b" "p").1 "p").2 = true := by decide

/-- **C1 (amended)**: a repeated `reportDone` for the same id leaves the
aggregator's registry exactly as a single report does, and while some
registrant is still incomplete after the report the double report is fully
idempotent (neither call fires, the coordinator is untouched); but once every
registrant is complete, *each* `reportDone` call fires the completion callback
toward the coordinator again, so completion is not fired exactly once per exit
cycle and the coordinator's state after a double report can differ from a
single one. -/
theorem c1_double_report_amended (m : Registry) (co : CoordState) (k id : String) :
    (reportDone (reportDone m id).1 id).1 = (reportDone m id).1 ∧
    ((reportDone m id).2 = false →
      reportThroughOnce (reportThroughOnce m co k id).1 (reportThroughOnce m co k id).2 k id
        = reportThroughOnce m co k id) := by
  have hs : mapSet (mapSet m id true) id true = mapSet m id true :=
    mapSet_mapSet_self m id true true
  constructor
  · exact hs
  · intro h
    have hall : (mapSet m id true).all (fun p => p.2) = false := h
    have h1 : reportThroughOnce m co k id = (mapSet m id true, co) := by
      rw [reportThroughOnce, reportDone]
      simp [hall]
    rw [h1]
    rw [reportThroughOnce, reportDone]
    simp [hs, hall]

/-- Witness for C1 (amended): registrants `p` and `q`, only `p` reports. -/
theorem c1_double_report_amended_witness :
    (reportDone (reportDone [("p", false), ("q", false)] "p").1 "p").1
        = (reportDone [("p", false), ("q", false)] "p").1 ∧
      reportThroughOnce (reportThroughOnce [("p", false), ("q", false)] co0 "b" "p").1
          (reportThroughOnce [("p", false), ("q", false)] co0 "b" "p").2 "b" "p"
        = reportThroughOnce [("p", false), ("q", false)] co0 "b" "p" := by
  obtain ⟨h1, h2⟩ := c1_double_report_amended [("p", false), ("q", false)] co0 "b" "p"
  exact ⟨h1, h2 (by decide)⟩

/-! ### C2 — completion handling -/

/-- A coordinator whose host has already torn the subtree down (`mounted =
false`) while key `b` is still exiting. -/
def cu : CoordState :=
  { isInitialRender := false
    mounted := false
    allChildren := [("b", eb)]
    presentChildren := [{ key := some "b", id := 1 }]
    exiting := ["b"]
    target := [ea]
    rendered := [exNode "b" eb]
    forceRenders := 0
    globalCb := 0 }

/-- **C2 counterexample**: when the completion callback drains the exiting set
after the host has torn the subtree down, the `isMounted` guard returns before
*both* the re-evaluation request and the global exit callback — the global
callback is not invoked, contradicting the claim that it is invoked whenever
the exiting set empties. -/
theorem c2_unmounted_skips_global_callback :
    (onExit cu "b").exiting = [] ∧ (onExit cu "b").presentChildren = cu.target ∧
      (onExit cu "b").globalCb = 0 ∧ (onExit cu "b").forceRenders = 0 := by decide

/-- **C2 (amended)**: when an exiting key's completion callback runs, the key
is removed from the known-children table and the exiting set and its
descriptor is spliced out of the committed-present sequence; if the exiting
set is then empty, the committed-present sequence is set equal to the latest
target sequence and — provided the host has not torn the subtree down — a
re-evaluation is requested and the global exit callback is invoked; if the
host has torn the subtree down, both the re-evaluation request and the global
exit callback are skipped as a no-op rather than an error. -/
theorem c2_completion_handling_amended (s : CoordState) (k : String)
    (hnd : (s.presentChildren.map getChildKey).Nodup)
    (hwrap : ∀ e ∈ s.presentChildren, getChildKey e = k → e.key = some k)
    (hkpc : k ∈ s.presentChildren.map getChildKey) :
    mapGet (onExit s k).allChildren k = none ∧
    (∀ j, j ≠ k → mapGet (onExit s k).allChildren j = mapGet s.allChildren j) ∧
    (onExit s k).exiting = s.exiting.filter (fun j => j ≠ k) ∧
    (s.exiting.filter (fun j => j ≠ k) = [] →
      (onExit s k).presentChildren = s.target ∧
      (s.mounted = true →
        (onExit s k).forceRenders = s.forceRenders + 1 ∧
        (onExit s k).globalCb = s.globalCb + 1) ∧
      (s.mounted = false →
        (onExit s k).forceRenders = s.forceRenders ∧
        (onExit s k).globalCb = s.globalCb)) ∧
    (s.exiting.filter (fun j => j ≠ k) ≠ [] →
      (onExit s k).presentChildren
          = s.presentChildren.filter (fun e => !(e.key == some k)) ∧
      (onExit s k).forceRenders = s.forceRenders ∧
      (onExit s k).globalCb = s.globalCb) := by
  refine ⟨?_, ?_, onExit_exiting s k, ?_, ?_⟩
  · rw [onExit_allChildren]
    exact mapGet_mapDelete_self s.allChildren k
  · intro j hj
    rw [onExit_allChildren]
    exact mapGet_mapDelete_ne s.allChildren hj
  · intro hdrain
    exact ⟨onExit_presentChildren_drain s k hdrain,
      fun hm => onExit_counts_drain_mounted s k hdrain hm,
      fun hm => onExit_counts_drain_unmounted s k hdrain hm⟩
  · intro hnodrain
    refine ⟨?_, onExit_counts_nondrain s k hnodrain⟩
    rw [onExit_presentChildren_nondrain s k hnodrain]
    exact spliceRemove_find_eq_filter s.presentChildren k hnd hwrap hkpc

/-- Witness for C2 (amended), at a mid-exit coordinator with keys `b` and `c`
exiting: completing `b` removes it from the table and splices its wrapper out
of the committed sequence. -/
theorem c2_completion_handling_amended_witness :
    mapGet (onExit co0 "b").allChildren "b" = none ∧
      (onExit co0 "b").presentChildren
        = co0.presentChildren.filter (fun e => !(e.key == some "b")) := by
  obtain ⟨h1, -, -, -, h5⟩ :=
    c2_completion_handling_amended co0 "b" (by decide) (by decide) (by decide)
  exact ⟨h1, (h5 (by decide)).1⟩

/-! ### Field projections of `renderPass` -/

lemma renderPass_isInitialRender (s : CoordState) (t : List Element) :
    (renderPass s t).isInitialRender = false := by
  rw [renderPass]
  split
  · rfl
  · next h => exact (Bool.not_eq_true _) ▸ h

lemma renderPass_globalCb (s : CoordState) (t : List Element) :
    (renderPass s t).globalCb = s.globalCb := by
  rw [renderPass]
  split <;> rfl

lemma renderPass_forceRenders (s : CoordState) (t : List Element) :
    (renderPass s t).forceRenders = s.forceRenders := by
  rw [renderPass]
  split <;> rfl

lemma renderPass_exiting (s : CoordState) (t : List Element) (h : s.isInitialRender = false) :
    (renderPass s t).exiting
      = computeExiting (s.presentChildren.map getChildKey) (t.map getChildKey) := by
  rw [renderPass_not_initial s t h]

lemma renderPass_rendered_eq (s : CoordState) (t : List Element) (h : s.isInitialRender = false) :
    (renderPass s t).rendered
      = buildOutput (computeExiting (s.presentChildren.map getChildKey) (t.map getChildKey))
          (s.presentChildren.map getChildKey) (t.map getChildKey) s.allChildren t := by
  rw [renderPass_not_initial s t h]

lemma renderPass_presentChildren_eq (s : CoordState) (t : List Element)
    (h : s.isInitialRender = false) :
    (renderPass s t).presentChildren
      = (buildOutput (computeExiting (s.presentChildren.map getChildKey) (t.map getChildKey))
          (s.presentChildren.map getChildKey) (t.map getChildKey) s.allChildren t).map
          RNode.toElement := by
  rw [renderPass_not_initial s t h]

lemma getChildKey_toElement (rn : RNode) : getChildKey rn.toElement = rn.key := rfl

lemma mem_liveCbKeys {s : CoordState} {k : String} :
    k ∈ s.liveCbKeys ↔ ∃ rn ∈ s.rendered, rn.hasExitCb = true ∧ rn.key = k := by
  rw [CoordState.liveCbKeys]
  constructor
  · intro h
    obtain ⟨rn, hrn, hkey⟩ := List.mem_map.mp h
    exact ⟨rn, List.mem_of_mem_filter hrn, List.of_mem_filter hrn, hkey⟩
  · intro ⟨rn, hrn, hcb, hkey⟩
    exact List.mem_map.mpr ⟨rn, List.mem_filter.mpr ⟨hrn, hcb⟩, hkey⟩

lemma filter_hasExitCb_presentNodes (t : List Element) :
    (t.map presentNode).filter (fun rn => rn.hasExitCb) = [] := by
  induction t with
  | nil => rfl
  | cons c t ih => simpa [List.filter_cons, presentNode] using ih

lemma outputFold_filter_present (pkl tkl : List String) (ac : List (String × Element))
    (ex : List String) :
    ∀ base : List RNode,
      (outputFold pkl tkl ac ex base).filter (fun rn => rn.isPresent)
        = base.filter (fun rn => rn.isPresent) := by
  induction ex with
  | nil => intro base; rfl
  | cons k ex ih =>
    intro base
    rw [outputFold_cons]
    by_cases hk : k ∈ tkl
    · rw [if_pos hk]
      exact ih base
    · rw [if_neg hk]
      cases hget : mapGet ac k with
      | none => exact ih base
      | some c =>
        rw [ih (jsSpliceInsert base (jsIndexOf pkl k) (exNode k c))]
        exact filter_jsSpliceInsert base _ rfl

/-! ### C3 — resurrection cancels a pending exit -/

/-- **C3**: a key classified exiting that reappears in the target sequence on
the next pass is dropped from the exiting set, gets no exit callback (so its
completion can never be fired for that cycle), and is rendered as a normal
present node; the present-flagged nodes of the new pass are exactly the
target children in target order, so the key re-enters the committed sequence
at its target-sequence position among the present nodes. -/
theorem c3_resurrection_cancels_exit (s : CoordState) (t : List Element) (k : String)
    (hinit : s.isInitialRender = false)
    (hex : k ∈ s.exiting)
    (hkt : k ∈ t.map getChildKey) :
    k ∉ (renderPass s t).exiting ∧
    k ∉ (renderPass s t).liveCbKeys ∧
    (renderPass s t).rendered.filter (fun rn => rn.isPresent) = t.map presentNode ∧
    (∀ rn ∈ (renderPass s t).rendered, rn.key = k →
      rn.isPresent = true ∧ rn.hasExitCb = false) := by
  have hnodecases : ∀ rn ∈ (renderPass s t).rendered,
      rn ∈ insertedNodes (s.presentChildren.map getChildKey) (t.map getChildKey)
          s.allChildren
          (computeExiting (s.presentChildren.map getChildKey) (t.map getChildKey))
        ∨ ∃ c ∈ t, rn = presentNode c := by
    intro rn hrn
    rw [renderPass_rendered_eq s t hinit, buildOutput] at hrn
    rcases mem_outputFold.mp hrn with h | h
    · exact Or.inl h
    · obtain ⟨c, hc, hrfl⟩ := List.mem_map.mp h
      exact Or.inr ⟨c, hc, hrfl.symm⟩
  refine ⟨?_, ?_, ?_, ?_⟩
  · intro hmem
    rw [renderPass_exiting s t hinit] at hmem
    exact (mem_computeExiting hmem).2 hkt
  · intro hmem
    obtain ⟨rn, hrn, hcb, hkey⟩ := mem_liveCbKeys.mp hmem
    rcases hnodecases rn hrn with h | ⟨c, hc, hrfl⟩
    · exact (mem_insertedNodes h).2.1 (hkey ▸ hkt)
    · rw [hrfl] at hcb
      cases hcb
  · rw [renderPass_rendered_eq s t hinit, buildOutput,
      outputFold_filter_present]
    exact List.filter_eq_self.mpr (fun rn hrn => by
      obtain ⟨c, hc, hrfl⟩ := List.mem_map.mp hrn
      rw [← hrfl]
      rfl)
  · intro rn hrn hkey
    rcases hnodecases rn hrn with h | ⟨c, hc, hrfl⟩
    · exact absurd (hkey ▸ hkt) (mem_insertedNodes h).2.1
    · rw [hrfl]
      exact ⟨rfl, rfl⟩

/-- Witness for C3 at the spec's Scenario B: `[a] → [] → [a]` — `a` was
exiting after the second pass and resurrects on the third. -/
theorem c3_resurrection_cancels_exit_witness :
    "a" ∉ (renderPass (renderPass (renderPass CoordState.init [ea]) []) [ea]).exiting ∧
      "a" ∉ (renderPass (renderPass (renderPass CoordState.init [ea]) []) [ea]).liveCbKeys ∧
      (renderPass (renderPass (renderPass CoordState.init [ea]) []) [ea]).rendered.filter
          (fun rn => rn.isPresent) = [ea].map presentNode ∧
      (∀ rn ∈ (renderPass (renderPass (renderPass CoordState.init [ea]) []) [ea]).rendered,
        rn.key = "a" → rn.isPresent = true ∧ rn.hasExitCb = false) :=
  c3_resurrection_cancels_exit (renderPass (renderPass CoordState.init [ea]) []) [ea] "a"
    (by decide) (by decide) (by decide)

/-! ### C6 — stable key set produces no exits -/

/-- **C6**: across two consecutive passes whose target key sets are identical
(and starting from a state with no pending exits, so the exiting set can
*stay* empty), the exiting set is empty after both passes, no exit callback is
wired on either pass, and neither the global exit callback nor a forced
re-render happens. -/
theorem c6_stable_keyset_no_exits (s : CoordState) (t1 t2 : List Element)
    (hinit : s.isInitialRender = false)
    (hpre : ∀ j ∈ s.presentChildren.map getChildKey, j ∈ t1.map getChildKey)
    (h12 : ∀ j ∈ t1.map getChildKey, j ∈ t2.map getChildKey)
    (h21 : ∀ j ∈ t2.map getChildKey, j ∈ t1.map getChildKey) :
    (renderPass s t1).exiting = [] ∧
    (renderPass (renderPass s t1) t2).exiting = [] ∧
    (renderPass s t1).liveCbKeys = [] ∧
    (renderPass (renderPass s t1) t2).liveCbKeys = [] ∧
    (renderPass (renderPass s t1) t2).globalCb = s.globalCb ∧
    (renderPass (renderPass s t1) t2).forceRenders = s.forceRenders := by
  have hex1 : computeExiting (s.presentChildren.map getChildKey) (t1.map getChildKey) = [] :=
    computeExiting_eq_nil hpre
  have hrend1 : (renderPass s t1).rendered = t1.map presentNode := by
    rw [renderPass_rendered_eq s t1 hinit, buildOutput, hex1, outputFold_nil]
  have hpk1 : (renderPass s t1).presentChildren.map getChildKey = t1.map getChildKey := by
    rw [renderPass_presentChildren_eq s t1 hinit, buildOutput, hex1, outputFold_nil]
    rw [List.map_map, List.map_map]
    rfl
  have hex2 : computeExiting ((renderPass s t1).presentChildren.map getChildKey)
      (t2.map getChildKey) = [] := by
    rw [hpk1]
    exact computeExiting_eq_nil h12
  have hinit1 : (renderPass s t1).isInitialRender = false := renderPass_isInitialRender s t1
  have hrend2 : (renderPass (renderPass s t1) t2).rendered = t2.map presentNode := by
    rw [renderPass_rendered_eq _ t2 hinit1, buildOutput, hex2, outputFold_nil]
  refine ⟨?_, ?_, ?_, ?_, ?_, ?_⟩
  · rw [renderPass_exiting s t1 hinit, hex1]
  · rw [renderPass_exiting _ t2 hinit1, hex2]
  · rw [CoordState.liveCbKeys, hrend1, filter_hasExitCb_presentNodes]
    rfl
  · rw [CoordState.liveCbKeys, hrend2, filter_hasExitCb_presentNodes]
    rfl
  · rw [renderPass_globalCb, renderPass_globalCb]
  · rw [renderPass_forceRenders, renderPass_forceRenders]

/-- Witness for C6: committed `[a, b]`, then targets `[b, a]` and `[a, b]` —
same key set in a different order on consecutive passes. -/
theorem c6_stable_keyset_no_exits_witness :
    (renderPass (renderPass CoordState.init [ea, eb]) [eb, ea]).exiting = [] ∧
      (renderPass (renderPass (renderPass CoordState.init [ea, eb]) [eb, ea]) [ea, eb]).exiting
        = [] ∧
      (renderPass (renderPass CoordState.init [ea, eb]) [eb, ea]).liveCbKeys = [] ∧
      (renderPass (renderPass (renderPass CoordState.init [ea, eb]) [eb, ea])
        [ea, eb]).liveCbKeys = [] ∧
      (renderPass (renderPass (renderPass CoordState.init [ea, eb]) [eb, ea]) [ea, eb]).globalCb
        = (renderPass CoordState.init [ea, eb]).globalCb ∧
      (renderPass (renderPass (renderPass CoordState.init [ea, eb]) [eb, ea])
          [ea, eb]).forceRenders
        = (renderPass CoordState.init [ea, eb]).forceRenders :=
  c6_stable_keyset_no_exits (renderPass CoordState.init [ea, eb]) [eb, ea] [ea, eb]
    (by decide) (by decide) (by decide) (by decide)

/-! ### C7 — missing-descriptor exiting keys -/

lemma computeExiting_mono {tkl : List String} :
    ∀ (pk ex0 : List String) {j : String}, j ∈ ex0 →
      j ∈ pk.foldl (fun ex k => if k ∈ tkl then ex else if k ∈ ex then ex else ex ++ [k])
        ex0 := by
  intro pk
  induction pk with
  | nil =>
    intro ex0 j h
    exact h
  | cons a pk ih =>
    intro ex0 j h
    rw [List.foldl_cons]
    by_cases ha : a ∈ tkl
    · rw [if_pos ha]
      exact ih ex0 h
    · rw [if_neg ha]
      by_cases hae : a ∈ ex0
      · rw [if_pos hae]
        exact ih ex0 h
      · rw [if_neg hae]
        exact ih (ex0 ++ [a]) (List.mem_append_left _ h)

lemma mem_computeExiting_of {pkl tkl : List String} {k : String}
    (hp : k ∈ pkl) (ht : k ∉ tkl) : k ∈ computeExiting pkl tkl := by
  have aux : ∀ (pk ex0 : List String), k ∈ pk →
      k ∈ pk.foldl (fun ex j => if j ∈ tkl then ex else if j ∈ ex then ex else ex ++ [j])
        ex0 := by
    intro pk
    induction pk with
    | nil =>
      intro ex0 h
      cases h
    | cons a pk ih =>
      intro ex0 h
      rw [List.foldl_cons]
      rcases List.mem_cons.mp h with rfl | h'
      · rw [if_neg ht]
        by_cases hae : k ∈ ex0
        · rw [if_pos hae]
          exact computeExiting_mono pk ex0 hae
        · rw [if_neg hae]
          exact computeExiting_mono pk (ex0 ++ [k]) (by simp)
      · by_cases ha : a ∈ tkl
        · rw [if_pos ha]
          exact ih ex0 h'
        · rw [if_neg ha]
          by_cases hae : a ∈ ex0
          · rw [if_pos hae]
            exact ih ex0 h'
          · rw [if_neg hae]
            exact ih (ex0 ++ [a]) h'
  exact aux pkl [] hp

/-- A committed state holding a ghost: key `g` is committed but has no entry
in the known-children table (key `b` is committed normally). -/
def s7 : CoordState :=
  { isInitialRender := false
    mounted := true
    allChildren := [("b", eb)]
    presentChildren := [{ key := some "b", id := 1 }, { key := some "g", id := 9 }]
    exiting := []
    target := []
    rendered := []
    forceRenders := 0
    globalCb := 0 }

/-- **C7 counterexample**: a key scheduled exiting whose descriptor is missing
is skipped in the rendered output, but it *remains* in the exiting set; after
the only other exiting key `b` completes, the exiting set is still non-empty
(`["g"]`) and neither the global exit callback nor the re-render fires — the
ghost key does keep the exiting set non-empty and does block the callback. -/
theorem c7_missing_descriptor_blocks_callback :
    (renderPass s7 []).exiting = ["b", "g"] ∧
      (∀ rn ∈ (renderPass s7 []).rendered, ¬ rn.key = "g") ∧
      (onExit (renderPass s7 []) "b").exiting = ["g"] ∧
      (onExit (renderPass s7 []) "b").globalCb = 0 ∧
      (onExit (renderPass s7 []) "b").forceRenders = 0 := by decide

/-- **C7 (amended)**: a key scheduled exiting whose descriptor is missing from
the known-children table is silently skipped — no error is raised and no node
is rendered for it — but it is not treated as already removed: it stays in
the exiting set, and since only a key's own exit callback can remove it, any
other key's completion leaves it there and finds the exiting set non-empty,
so the global exit callback and the re-evaluation request stay blocked. -/
theorem c7_missing_descriptor_amended (s : CoordState) (t : List Element) (k : String)
    (hinit : s.isInitialRender = false)
    (hkp : k ∈ s.presentChildren.map getChildKey)
    (hkt : k ∉ t.map getChildKey)
    (hmiss : mapGet s.allChildren k = none) :
    k ∈ (renderPass s t).exiting ∧
    (∀ rn ∈ (renderPass s t).rendered, ¬ rn.key = k) ∧
    (∀ j, j ≠ k → k ∈ (onExit (renderPass s t) j).exiting) ∧
    (∀ j, j ≠ k →
      (onExit (renderPass s t) j).forceRenders = (renderPass s t).forceRenders ∧
      (onExit (renderPass s t) j).globalCb = (renderPass s t).globalCb) := by
  have hkex : k ∈ (renderPass s t).exiting := by
    rw [renderPass_exiting s t hinit]
    exact mem_computeExiting_of hkp hkt
  have hmemfilter : ∀ j, j ≠ k →
      k ∈ (renderPass s t).exiting.filter (fun i => i ≠ j) := by
    intro j hj
    exact List.mem_filter.mpr ⟨hkex, decide_eq_true (Ne.symm hj)⟩
  refine ⟨hkex, ?_, ?_, ?_⟩
  · intro rn hrn hkey
    rw [renderPass_rendered_eq s t hinit, buildOutput] at hrn
    rcases mem_outputFold.mp hrn with h | h
    · have hsome := (mem_insertedNodes h).2.2.1
      rw [hkey, hmiss] at hsome
      cases hsome
    · obtain ⟨c, hc, hrfl⟩ := List.mem_map.mp h
      refine hkt ?_
      rw [← hkey, ← hrfl]
      exact List.mem_map_of_mem getChildKey hc
  · intro j hj
    rw [onExit_exiting]
    exact hmemfilter j hj
  · intro j hj
    exact onExit_counts_nondrain (renderPass s t) j
      (List.ne_nil_of_mem (hmemfilter j hj))

/-- Witness for C7 (amended): the ghost key `g` of `s7` on a pass whose
target is empty; completing `b` does not unblock the global callback. -/
theorem c7_missing_descriptor_amended_witness :
    "g" ∈ (renderPass s7 []).exiting ∧
      (onExit (renderPass s7 []) "b").globalCb = (renderPass s7 []).globalCb := by
  obtain ⟨h1, -, -, h4⟩ :=
    c7_missing_descriptor_amended s7 [] "g" (by decide) (by decide) (by decide) (by decide)
  exact ⟨h1, (h4 "b" (by decide)).2⟩

/-! ### C9 — the closure-identity system

`CoordState`/`onExit` describe the body of one `onExit` closure run against
the state it captured.  Whether the claimed invariant holds "at every point
between operations" additionally depends on *which* closure a participant's
`reportDone` reaches.  The component body allocates a fresh `exiting` Set
object and a fresh `onExit` closure per render, but `PresenceChild`'s context
is memoized on `[isPresent]` (lines 250-277): while a key stays exiting across
renders its context — the only path nested participants have to the
aggregator — keeps the `onExitComplete` prop of the render in which
`isPresent` flipped, a closure over *that* render's `exiting` Set and
`filteredChildren`.  `SysState` carries this bookkeeping explicitly. -/

/-- One render's heap objects as captured by the `onExit` closures it spawned:
the render's `exiting` Set object (mutable, shared by that render's closures)
and its `filteredChildren` array. -/
structure PassRec where
  exitSet : List String
  target : List Element
deriving DecidableEq, Repr

/-- Coordinator state with closure identity: `passes` records every render's
`exiting` Set object and captured target (the current render is the last
entry); `pins` maps each currently rendered exiting key to the index of the
render whose `onExit` closure its `PresenceChild` context holds. -/
structure SysState where
  isInitialRender : Bool
  mounted : Bool
  allChildren : List (String × Element)
  presentChildren : List Element
  passes : List PassRec
  pins : List (String × Nat)
  forceRenders : Nat
  globalCb : Nat
deriving DecidableEq, Repr

/-- A freshly mounted `AnimatePresence` before its first pass. -/
def SysState.init : SysState :=
  { isInitialRender := true
    mounted := true
    allChildren := []
    presentChildren := []
    passes := []
    pins := []
    forceRenders := 0
    globalCb := 0 }

/-- *The* exiting set of the coordinator — the current render's `exiting` Set
object, the one the next diff and the drain checks of current-render closures
consult. -/
def SysState.exiting (s : SysState) : List String :=
  match s.passes.getLast? with
  | none => []
  | some pr => pr.exitSet

/-- The `filteredChildren` captured by the current render. -/
def SysState.target (s : SysState) : List Element :=
  match s.passes.getLast? with
  | none => []
  | some pr => pr.target

/-- An evaluation pass, as `renderPass`, plus the closure bookkeeping: the
render appends a fresh `exiting` Set object holding the freshly computed diff,
and every rendered exiting key is pinned to a closure — a key whose
`isPresent` flipped this render (it was not pinned before, so its context
recomputes) is pinned to this render's closure, while a key that stays exiting
keeps its earlier pin because the `[isPresent]`-memoized context never
recomputes; keys no longer rendered exiting (completed, resurrected, or
descriptor-less) lose their pin as their wrapper unmounts or its context is
rebuilt without an `onExitComplete`. -/
def renderPassSys (s : SysState) (t : List Element) : SysState :=
  if s.isInitialRender then
    { s with
      isInitialRender := false
      allChildren := updateChildLookup t s.allChildren
      presentChildren := t
      passes := s.passes ++ [{ exitSet := [], target := t }]
      pins := [] }
  else
    let presentKeys := s.presentChildren.map getChildKey
    let targetKeys := t.map getChildKey
    let ex := computeExiting presentKeys targetKeys
    let out := buildOutput ex presentKeys targetKeys s.allChildren t
    { s with
      isInitialRender := false
      allChildren := updateChildLookup t s.allChildren
      presentChildren := out.map RNode.toElement
      passes := s.passes ++ [{ exitSet := ex, target := t }]
      pins := (ex.filter (fun k => (mapGet s.allChildren k).isSome)).map
        (fun k => (k, (mapGet s.pins k).getD s.passes.length)) }

/-- A completion signal for key `k` reaching the coordinator: it runs the
`onExit` closure `k` is pinned to, which operates on the *shared* refs
(`allChildren`, `presentChildren`, `isMounted`) but on the `exiting` Set
object and `filteredChildren` of the render that created it. -/
def onExitSys (s : SysState) (k : String) : SysState :=
  match mapGet s.pins k with
  | none => s
  | some n =>
    match s.passes[n]? with
    | none => s
    | some pr =>
      let allChildren := mapDelete s.allChildren k
      let exitSet := pr.exitSet.filter (fun j => j ≠ k)
      let passes := s.passes.set n { exitSet := exitSet, target := pr.target }
      let removeIndex := jsFindIndex (fun child => child.key == some k) s.presentChildren
      let presentChildren := jsSpliceRemove1 s.presentChildren removeIndex
      if exitSet.isEmpty then
        if s.mounted then
          { s with
            allChildren := allChildren
            passes := passes
            presentChildren := pr.target
            forceRenders := s.forceRenders + 1
            globalCb := s.globalCb + 1 }
        else
          { s with
            allChildren := allChildren
            passes := passes
            presentChildren := pr.target }
      else
        { s with
          allChildren := allChildren
          passes := passes
          presentChildren := presentChildren }

/-- Modelled from the spec: teardown (`use-is-mounted.js` and
`use-unmount-effect.js` are not under `src/`) flips the mounted flag and
"resets all state (known-children table cleared, exiting set cleared) so a
later remount starts clean"; the spec also keeps stale completion callbacks
invokable afterwards ("detected via a liveness check and silently ignored"),
so the pins survive. -/
def unmountSys (s : SysState) : SysState :=
  { s with
    mounted := false
    isInitialRender := true
    allChildren := []
    passes := s.passes.map (fun pr => { exitSet := [], target := pr.target }) }

def ek : Element := { key := some "k", id := 10 }

def ej : Element := { key := some "j", id := 11 }

/-- **C9 counterexample**: the trace `[k, j] → [j] → []` with a completion for
`k` arriving after the third pass.  `k` flips exiting on the second pass, so
its memoized context pins its participants to the second pass's closure; the
third pass marks `j` exiting too and rebuilds the exiting set as
`["k", "j"]`, but `k`'s pin still points at the second pass.  Firing that
stale closure deletes `k` from the known-children table and drains the stale
one-element set — even firing the global exit callback while `j` is still
exiting — while the *current* exiting set retains `k` with no table entry:
the claimed invariant fails between operations. -/
theorem c9_stale_closure_counterexample :
    "k" ∈ (onExitSys (renderPassSys (renderPassSys
        (renderPassSys SysState.init [ek, ej]) [ej]) []) "k").exiting ∧
      mapGet (onExitSys (renderPassSys (renderPassSys
        (renderPassSys SysState.init [ek, ej]) [ej]) []) "k").allChildren "k" = none ∧
      "j" ∈ (onExitSys (renderPassSys (renderPassSys
        (renderPassSys SysState.init [ek, ej]) [ej]) []) "k").exiting ∧
      (onExitSys (renderPassSys (renderPassSys
        (renderPassSys SysState.init [ek, ej]) [ej]) []) "k").globalCb = 1 := by decide

/-! ### The amended invariant: completions through the current pass's closure -/

/-- Committed keys of a system state (the source's `presentKeys`). -/
def pksOf (s : SysState) : List String := s.presentChildren.map getChildKey

/-- Keys of the current render's captured target. -/
def tksOf (s : SysState) : List String := (SysState.target s).map getChildKey

/-- The keys holding a pinned `onExit` closure. -/
def pinKeys (s : SysState) : List String := s.pins.map (fun p => p.1)

lemma mem_of_mapGet {m : List (String × β)} {k : String} {v : β}
    (h : mapGet m k = some v) : (k, v) ∈ m := by
  induction m with
  | nil => cases h
  | cons p m ih =>
    obtain ⟨a, w⟩ := p
    by_cases hak : a = k
    · subst hak
      rw [show mapGet ((a, w) :: m) a = if a = a then some w else mapGet m a from rfl,
        if_pos rfl] at h
      obtain rfl : w = v := Option.some.inj h
      exact List.mem_cons_self _ _
    · rw [show mapGet ((a, w) :: m) k = if a = k then some w else mapGet m k from rfl,
        if_neg hak] at h
      exact List.mem_cons_of_mem _ (ih h)

lemma sysExiting_eq_of_getLast {s : SysState} {pr : PassRec}
    (h : s.passes.getLast? = some pr) : s.exiting = pr.exitSet := by
  simp only [SysState.exiting, h]

lemma sysTarget_eq_of_getLast {s : SysState} {pr : PassRec}
    (h : s.passes.getLast? = some pr) : SysState.target s = pr.target := by
  simp only [SysState.target, h]

lemma sysExiting_of_passes_concat {s : SysState} {l : List PassRec} {pr : PassRec}
    (h : s.passes = l ++ [pr]) : s.exiting = pr.exitSet := by
  refine sysExiting_eq_of_getLast ?_
  rw [h]
  exact List.getLast?_concat _

lemma sysTarget_of_passes_concat {s : SysState} {l : List PassRec} {pr : PassRec}
    (h : s.passes = l ++ [pr]) : SysState.target s = pr.target := by
  refine sysTarget_eq_of_getLast ?_
  rw [h]
  exact List.getLast?_concat _

lemma getLast?_set_last (l : List α) (a : α) (h : l ≠ []) :
    (l.set (l.length - 1) a).getLast? = some a := by
  have hlt : l.length - 1 < l.length := by
    cases l with
    | nil => exact absurd rfl h
    | cons x xs => simp
  rw [List.getLast?_eq_getElem?, List.length_set]
  exact List.getElem?_set_self hlt

lemma renderPassSys_initial (s : SysState) (t : List Element)
    (h : s.isInitialRender = true) :
    renderPassSys s t =
      { s with
        isInitialRender := false
        allChildren := updateChildLookup t s.allChildren
        presentChildren := t
        passes := s.passes ++ [{ exitSet := [], target := t }]
        pins := [] } := by
  rw [renderPassSys, if_pos h]

lemma renderPassSys_not_initial (s : SysState) (t : List Element)
    (h : s.isInitialRender = false) :
    renderPassSys s t =
      { s with
        isInitialRender := false
        allChildren := updateChildLookup t s.allChildren
        presentChildren := (buildOutput (computeExiting (s.presentChildren.map getChildKey)
            (t.map getChildKey)) (s.presentChildren.map getChildKey) (t.map getChildKey)
            s.allChildren t).map RNode.toElement
        passes := s.passes ++
          [{ exitSet := computeExiting (s.presentChildren.map getChildKey) (t.map getChildKey)
             target := t }]
        pins := ((computeExiting (s.presentChildren.map getChildKey)
            (t.map getChildKey)).filter (fun k => (mapGet s.allChildren k).isSome)).map
            (fun k => (k, (mapGet s.pins k).getD s.passes.length)) } := by
  rw [renderPassSys, if_neg (by simp [h])]

lemma onExitSys_allChildren {s : SysState} {k : String} {n : Nat} {pr : PassRec}
    (hpin : mapGet s.pins k = some n) (hpr : s.passes[n]? = some pr) :
    (onExitSys s k).allChildren = mapDelete s.allChildren k := by
  simp only [onExitSys, hpin, hpr]
  split
  · split <;> rfl
  · rfl

lemma onExitSys_pins {s : SysState} {k : String} {n : Nat} {pr : PassRec}
    (hpin : mapGet s.pins k = some n) (hpr : s.passes[n]? = some pr) :
    (onExitSys s k).pins = s.pins := by
  simp only [onExitSys, hpin, hpr]
  split
  · split <;> rfl
  · rfl

lemma onExitSys_isInitialRender {s : SysState} {k : String} {n : Nat} {pr : PassRec}
    (hpin : mapGet s.pins k = some n) (hpr : s.passes[n]? = some pr) :
    (onExitSys s k).isInitialRender = s.isInitialRender := by
  simp only [onExitSys, hpin, hpr]
  split
  · split <;> rfl
  · rfl

lemma onExitSys_passes {s : SysState} {k : String} {n : Nat} {pr : PassRec}
    (hpin : mapGet s.pins k = some n) (hpr : s.passes[n]? = some pr) :
    (onExitSys s k).passes
      = s.passes.set n
          { exitSet := pr.exitSet.filter (fun j => j ≠ k), target := pr.target } := by
  simp only [onExitSys, hpin, hpr]
  split
  · split <;> rfl
  · rfl

lemma onExitSys_presentChildren_drain {s : SysState} {k : String} {n : Nat} {pr : PassRec}
    (hpin : mapGet s.pins k = some n) (hpr : s.passes[n]? = some pr)
    (hdrain : pr.exitSet.filter (fun j => j ≠ k) = []) :
    (onExitSys s k).presentChildren = pr.target := by
  simp only [onExitSys, hpin, hpr]
  rw [if_pos (List.isEmpty_iff.mpr hdrain)]
  split <;> rfl

lemma onExitSys_presentChildren_nondrain {s : SysState} {k : String} {n : Nat} {pr : PassRec}
    (hpin : mapGet s.pins k = some n) (hpr : s.passes[n]? = some pr)
    (hdrain : pr.exitSet.filter (fun j => j ≠ k) ≠ []) :
    (onExitSys s k).presentChildren
      = jsSpliceRemove1 s.presentChildren
          (jsFindIndex (fun child => child.key == some k) s.presentChildren) := by
  simp only [onExitSys, hpin, hpr]
  rw [if_neg (fun hc => hdrain (List.isEmpty_iff.mp hc))]

/-- The operations of the closure-identity system: an evaluation pass with
distinct target keys (the documented caller contract), a completion delivered
through a closure pinned to the *current* pass (the amended claim's
discipline), and unmounting. -/
inductive SysStep : SysState → SysState → Prop
  | pass (s : SysState) (t : List Element) (ht : (t.map getChildKey).Nodup) :
      SysStep s (renderPassSys s t)
  | exitFire (s : SysState) (k : String)
      (hk : mapGet s.pins k = some (s.passes.length - 1)) :
      SysStep s (onExitSys s k)
  | unmount (s : SysState) : SysStep s (unmountSys s)

/-- States reachable from a fresh mount under the current-closure discipline. -/
inductive SysReachable : SysState → Prop
  | init : SysReachable SysState.init
  | step {s s' : SysState} : SysReachable s → SysStep s s' → SysReachable s'

/-- The inductive invariant behind the amended C9. -/
structure SysInv (s : SysState) : Prop where
  exiting_has : ∀ k ∈ s.exiting, (mapGet s.allChildren k).isSome = true
  exiting_tk : ∀ k ∈ s.exiting, k ∉ tksOf s
  pins_tk : ∀ k ∈ pinKeys s, k ∉ tksOf s
  pins_lt : ∀ p ∈ s.pins, p.2 < s.passes.length
  present_has : s.isInitialRender = false →
    ∀ e ∈ s.presentChildren, (mapGet s.allChildren (getChildKey e)).isSome = true
  target_has : s.isInitialRender = false →
    ∀ j ∈ tksOf s, (mapGet s.allChildren j).isSome = true
  pk_nodup : s.isInitialRender = false → (pksOf s).Nodup
  tk_nodup : s.isInitialRender = false → (tksOf s).Nodup
  wrapped : ∀ k ∈ pinKeys s, ∀ e ∈ s.presentChildren,
    getChildKey e = k → e.key = some k

lemma sysInv_init : SysInv SysState.init := by
  refine ⟨?_, ?_, ?_, ?_, ?_, ?_, ?_, ?_, ?_⟩
  · intro k hk
    exact absurd hk (List.not_mem_nil k)
  · intro k hk
    exact absurd hk (List.not_mem_nil k)
  · intro k hk
    exact absurd hk (List.not_mem_nil k)
  · intro p hp
    exact absurd hp (List.not_mem_nil p)
  · intro h
    cases h
  · intro h
    cases h
  · intro h
    cases h
  · intro h
    cases h
  · intro k hk
    exact absurd hk (List.not_mem_nil k)

lemma sysInv_renderPass {s : SysState} (hI : SysInv s) (t : List Element)
    (ht : (t.map getChildKey).Nodup) : SysInv (renderPassSys s t) := by
  by_cases hinit : s.isInitialRender = true
  · have hrw := renderPassSys_initial s t hinit
    have hp : (renderPassSys s t).passes = s.passes ++ [(⟨[], t⟩ : PassRec)] := by
      rw [hrw]
    have hexi : (renderPassSys s t).exiting = [] := sysExiting_of_passes_concat hp
    have htg : SysState.target (renderPassSys s t) = t := sysTarget_of_passes_concat hp
    have hpins : (renderPassSys s t).pins = [] := by
      rw [hrw]
    refine ⟨?_, ?_, ?_, ?_, ?_, ?_, ?_, ?_, ?_⟩
    · intro k hk
      rw [hexi] at hk
      exact absurd hk (List.not_mem_nil k)
    · intro k hk
      rw [hexi] at hk
      exact absurd hk (List.not_mem_nil k)
    · intro k hk
      rw [pinKeys, hpins] at hk
      exact absurd hk (List.not_mem_nil k)
    · intro p hp
      rw [hpins] at hp
      exact absurd hp (List.not_mem_nil p)
    · intro _ e he
      rw [hrw] at he ⊢
      exact mapGet_updateChildLookup_mem s.allChildren he
    · intro _ j hj
      rw [tksOf, htg] at hj
      obtain ⟨c, hc, hrfl⟩ := List.mem_map.mp hj
      rw [hrw]
      exact hrfl ▸ mapGet_updateChildLookup_mem s.allChildren hc
    · intro _
      rw [pksOf, hrw]
      exact ht
    · intro _
      rw [tksOf, htg]
      exact ht
    · intro k hk
      rw [pinKeys, hpins] at hk
      exact absurd hk (List.not_mem_nil k)
  · have hinit' : s.isInitialRender = false := by
      cases hb : s.isInitialRender
      · rfl
      · exact absurd hb hinit
    have hrw := renderPassSys_not_initial s t hinit'
    have hp : (renderPassSys s t).passes
        = s.passes ++ [(⟨computeExiting (s.presentChildren.map getChildKey)
            (t.map getChildKey), t⟩ : PassRec)] := by
      rw [hrw]
    have hexi : (renderPassSys s t).exiting
        = computeExiting (s.presentChildren.map getChildKey) (t.map getChildKey) :=
      sysExiting_of_passes_concat hp
    have htg : SysState.target (renderPassSys s t) = t := sysTarget_of_passes_concat hp
    have htks : tksOf (renderPassSys s t) = t.map getChildKey := by
      rw [tksOf, htg]
    have hpc : (renderPassSys s t).presentChildren
        = (buildOutput (computeExiting (s.presentChildren.map getChildKey)
            (t.map getChildKey)) (s.presentChildren.map getChildKey) (t.map getChildKey)
            s.allChildren t).map RNode.toElement := by
      rw [hrw]
    have hac : (renderPassSys s t).allChildren = updateChildLookup t s.allChildren := by
      rw [hrw]
    have hpins : (renderPassSys s t).pins
        = ((computeExiting (s.presentChildren.map getChildKey)
            (t.map getChildKey)).filter (fun k => (mapGet s.allChildren k).isSome)).map
            (fun k => (k, (mapGet s.pins k).getD s.passes.length)) := by
      rw [hrw]
    have hpinkeys : pinKeys (renderPassSys s t)
        = (computeExiting (s.presentChildren.map getChildKey)
            (t.map getChildKey)).filter (fun k => (mapGet s.allChildren k).isSome) := by
      rw [pinKeys, hpins, List.map_map]
      exact List.map_id _
    have hcases : ∀ rn ∈ buildOutput (computeExiting (s.presentChildren.map getChildKey)
        (t.map getChildKey)) (s.presentChildren.map getChildKey) (t.map getChildKey)
        s.allChildren t,
        rn ∈ insertedNodes (s.presentChildren.map getChildKey) (t.map getChildKey)
            s.allChildren
            (computeExiting (s.presentChildren.map getChildKey) (t.map getChildKey))
          ∨ ∃ c ∈ t, rn = presentNode c := by
      intro rn hrn
      rw [buildOutput] at hrn
      rcases mem_outputFold.mp hrn with h | h
      · exact Or.inl h
      · obtain ⟨c, hc, hrfl⟩ := List.mem_map.mp h
        exact Or.inr ⟨c, hc, hrfl.symm⟩
    have hackeep : ∀ j : String, (mapGet s.allChildren j).isSome = true →
        (mapGet (renderPassSys s t).allChildren j).isSome = true := by
      intro j hj
      rw [hac]
      exact isSome_mapGet_updateChildLookup t s.allChildren j hj
    have htarget : ∀ j ∈ t.map getChildKey,
        (mapGet (renderPassSys s t).allChildren j).isSome = true := by
      intro j hj
      obtain ⟨c, hc, hrfl⟩ := List.mem_map.mp hj
      rw [hac]
      exact hrfl ▸ mapGet_updateChildLookup_mem s.allChildren hc
    refine ⟨?_, ?_, ?_, ?_, ?_, ?_, ?_, ?_, ?_⟩
    · intro k hk
      rw [hexi] at hk
      obtain ⟨hkp, _⟩ := mem_computeExiting hk
      obtain ⟨e, he, hrfl⟩ := List.mem_map.mp hkp
      exact hackeep k (hrfl ▸ hI.present_has hinit' e he)
    · intro k hk
      rw [hexi] at hk
      rw [htks]
      exact (mem_computeExiting hk).2
    · intro k hk
      rw [hpinkeys] at hk
      rw [htks]
      exact (mem_computeExiting (List.mem_of_mem_filter hk)).2
    · intro p hp
      rw [hpins] at hp
      obtain ⟨k, hk, hrfl⟩ := List.mem_map.mp hp
      have hlen : (renderPassSys s t).passes.length = s.passes.length + 1 := by
        rw [hrw]
        simp [List.length_append]
      rw [hlen, ← hrfl]
      cases hg : mapGet s.pins k with
      | none =>
        simp [hg]
      | some m =>
        have hm := hI.pins_lt (k, m) (mem_of_mapGet hg)
        simp only [hg, Option.getD_some] at *
        omega
    · intro _ e he
      rw [hpc] at he
      obtain ⟨rn, hrn, hrfl⟩ := List.mem_map.mp he
      have hgk : getChildKey e = rn.key := by
        rw [← hrfl]
        rfl
      rw [hgk]
      rcases hcases rn hrn with h | ⟨c, hc, hrfl'⟩
      · exact hackeep rn.key (by rw [(mem_insertedNodes h).2.2.1]; rfl)
      · refine htarget rn.key ?_
        rw [hrfl']
        exact List.mem_map_of_mem getChildKey hc
    · intro _ j hj
      rw [htks] at hj
      exact htarget j hj
    · intro _
      have hpkeq : pksOf (renderPassSys s t)
          = (buildOutput (computeExiting (s.presentChildren.map getChildKey)
              (t.map getChildKey)) (s.presentChildren.map getChildKey) (t.map getChildKey)
              s.allChildren t).map (fun rn => rn.key) := by
        rw [pksOf, hpc, List.map_map]
        rfl
      rw [hpkeq, buildOutput]
      have hperm := (outputFold_perm (s.presentChildren.map getChildKey)
        (t.map getChildKey) s.allChildren
        (computeExiting (s.presentChildren.map getChildKey) (t.map getChildKey))
        (t.map presentNode)).map (fun rn => rn.key)
      rw [hperm.nodup_iff, List.map_append, List.nodup_append]
      refine ⟨?_, ?_, ?_⟩
      · exact (insertedNodes_keys_sublist _ _ _ _).nodup (computeExiting_nodup _ _)
      · have hb : (t.map presentNode).map (fun rn => rn.key) = t.map getChildKey := by
          rw [List.map_map]
          rfl
        rw [hb]
        exact ht
      · intro a ha hb
        have ha' : a ∈ computeExiting (s.presentChildren.map getChildKey)
            (t.map getChildKey) := (insertedNodes_keys_sublist _ _ _ _).mem ha
        have hbb : (t.map presentNode).map (fun rn => rn.key) = t.map getChildKey := by
          rw [List.map_map]
          rfl
        rw [hbb] at hb
        exact (mem_computeExiting ha').2 hb
    · intro _
      rw [htks]
      exact ht
    · intro j hj e he hgk
      rw [hpc] at he
      obtain ⟨rn, hrn, hrfl⟩ := List.mem_map.mp he
      have h1 : e.key = some rn.key := by
        rw [← hrfl]
        rfl
      have h2 : getChildKey e = rn.key := by
        rw [← hrfl]
        rfl
      rw [h1, ← h2, hgk]

lemma sysInv_onExit {s : SysState} (hI : SysInv s) (k : String)
    (hk : mapGet s.pins k = some (s.passes.length - 1)) : SysInv (onExitSys s k) := by
  have hmempin : (k, s.passes.length - 1) ∈ s.pins := mem_of_mapGet hk
  have hkpk : k ∈ pinKeys s := List.mem_map_of_mem (fun p => p.1) hmempin
  have hlt : s.passes.length - 1 < s.passes.length := hI.pins_lt _ hmempin
  have hne : s.passes ≠ [] := by
    intro h0
    rw [h0] at hlt
    simp at hlt
  obtain ⟨pr, hpr⟩ : ∃ pr, s.passes[s.passes.length - 1]? = some pr :=
    ⟨_, List.getElem?_eq_getElem hlt⟩
  have hcurex : s.exiting = pr.exitSet := by
    refine sysExiting_eq_of_getLast ?_
    rw [List.getLast?_eq_getElem?]
    exact hpr
  have hcurtg : SysState.target s = pr.target := by
    refine sysTarget_eq_of_getLast ?_
    rw [List.getLast?_eq_getElem?]
    exact hpr
  have hktk : k ∉ tksOf s := hI.pins_tk k hkpk
  have hlast : (onExitSys s k).passes.getLast?
      = some { exitSet := pr.exitSet.filter (fun j => j ≠ k), target := pr.target } := by
    rw [onExitSys_passes hk hpr]
    exact getLast?_set_last s.passes _ hne
  have hexi : (onExitSys s k).exiting = pr.exitSet.filter (fun j => j ≠ k) := by
    have h1 := sysExiting_eq_of_getLast hlast
    exact h1
  have htg : SysState.target (onExitSys s k) = pr.target := by
    have h1 := sysTarget_eq_of_getLast hlast
    exact h1
  have htks : tksOf (onExitSys s k) = tksOf s := by
    rw [tksOf, htg, tksOf, hcurtg]
  have hpins : (onExitSys s k).pins = s.pins := onExitSys_pins hk hpr
  have hinitp : (onExitSys s k).isInitialRender = s.isInitialRender :=
    onExitSys_isInitialRender hk hpr
  have hpasslen : (onExitSys s k).passes.length = s.passes.length := by
    rw [onExitSys_passes hk hpr, List.length_set]
  refine ⟨?_, ?_, ?_, ?_, ?_, ?_, ?_, ?_, ?_⟩
  · intro j hj
    rw [hexi] at hj
    have hjk : j ≠ k := by simpa using List.of_mem_filter hj
    rw [onExitSys_allChildren hk hpr, mapGet_mapDelete_ne s.allChildren hjk]
    refine hI.exiting_has j ?_
    rw [hcurex]
    exact List.mem_of_mem_filter hj
  · intro j hj
    rw [hexi] at hj
    rw [htks]
    refine hI.exiting_tk j ?_
    rw [hcurex]
    exact List.mem_of_mem_filter hj
  · intro j hj
    rw [pinKeys, hpins] at hj
    rw [htks]
    exact hI.pins_tk j hj
  · intro p hp
    rw [hpins] at hp
    rw [hpasslen]
    exact hI.pins_lt p hp
  · intro hP e he
    rw [hinitp] at hP
    by_cases hdrain : pr.exitSet.filter (fun j => j ≠ k) = []
    · rw [onExitSys_presentChildren_drain hk hpr hdrain] at he
      have hmem : getChildKey e ∈ tksOf s := by
        rw [tksOf, hcurtg]
        exact List.mem_map_of_mem getChildKey he
      have hne2 : getChildKey e ≠ k := fun hc => hktk (hc ▸ hmem)
      rw [onExitSys_allChildren hk hpr, mapGet_mapDelete_ne s.allChildren hne2]
      exact hI.target_has hP (getChildKey e) hmem
    · rw [onExitSys_presentChildren_nondrain hk hpr hdrain] at he
      by_cases hkp : k ∈ s.presentChildren.map getChildKey
      · rw [spliceRemove_find_eq_filter s.presentChildren k (hI.pk_nodup hP)
          (hI.wrapped k hkpk) hkp] at he
        have hne2 : getChildKey e ≠ k := by
          intro hc
          have hwk : e.key = some k :=
            hI.wrapped k hkpk e (List.mem_of_mem_filter he) hc
          have := List.of_mem_filter he
          rw [hwk] at this
          simp at this
        rw [onExitSys_allChildren hk hpr, mapGet_mapDelete_ne s.allChildren hne2]
        exact hI.present_has hP e (List.mem_of_mem_filter he)
      · have he' : e ∈ s.presentChildren := (jsSpliceRemove1_sublist _ _).mem he
        have hne2 : getChildKey e ≠ k := by
          intro hc
          exact hkp (hc ▸ List.mem_map_of_mem getChildKey he')
        rw [onExitSys_allChildren hk hpr, mapGet_mapDelete_ne s.allChildren hne2]
        exact hI.present_has hP e he'
  · intro hP j hj
    rw [hinitp] at hP
    rw [htks] at hj
    have hne2 : j ≠ k := fun hc => hktk (hc ▸ hj)
    rw [onExitSys_allChildren hk hpr, mapGet_mapDelete_ne s.allChildren hne2]
    exact hI.target_has hP j hj
  · intro hP
    rw [hinitp] at hP
    by_cases hdrain : pr.exitSet.filter (fun j => j ≠ k) = []
    · have h1 : pksOf (onExitSys s k) = tksOf s := by
        rw [pksOf, onExitSys_presentChildren_drain hk hpr hdrain, tksOf, hcurtg]
      rw [h1]
      exact hI.tk_nodup hP
    · have h1 : pksOf (onExitSys s k)
          = (jsSpliceRemove1 s.presentChildren
              (jsFindIndex (fun child => child.key == some k) s.presentChildren)).map
              getChildKey := by
        rw [pksOf, onExitSys_presentChildren_nondrain hk hpr hdrain]
      rw [h1]
      exact ((jsSpliceRemove1_sublist _ _).map getChildKey).nodup (hI.pk_nodup hP)
  · intro hP
    rw [hinitp] at hP
    rw [htks]
    exact hI.tk_nodup hP
  · intro j hj e he hgk
    rw [pinKeys, hpins] at hj
    by_cases hdrain : pr.exitSet.filter (fun i => i ≠ k) = []
    · rw [onExitSys_presentChildren_drain hk hpr hdrain] at he
      refine absurd ?_ (hI.pins_tk j hj)
      rw [tksOf, hcurtg]
      exact hgk ▸ List.mem_map_of_mem getChildKey he
    · rw [onExitSys_presentChildren_nondrain hk hpr hdrain] at he
      exact hI.wrapped j hj e ((jsSpliceRemove1_sublist _ _).mem he) hgk

lemma sysInv_unmount {s : SysState} (hI : SysInv s) : SysInv (unmountSys s) := by
  have hmap : (unmountSys s).passes.getLast?
      = (s.passes.getLast?).map (fun pr => PassRec.mk [] pr.target) := by
    show (s.passes.map (fun pr => PassRec.mk [] pr.target)).getLast? = _
    rw [List.getLast?_eq_getElem?, List.getLast?_eq_getElem?, List.getElem?_map,
      List.length_map]
  have hexi : (unmountSys s).exiting = [] := by
    simp only [SysState.exiting, hmap]
    cases s.passes.getLast? <;> rfl
  have htg : SysState.target (unmountSys s) = SysState.target s := by
    simp only [SysState.target, hmap]
    cases s.passes.getLast? <;> rfl
  have htks : tksOf (unmountSys s) = tksOf s := by
    rw [tksOf, htg, tksOf]
  have hpins : (unmountSys s).pins = s.pins := rfl
  refine ⟨?_, ?_, ?_, ?_, ?_, ?_, ?_, ?_, ?_⟩
  · intro j hj
    rw [hexi] at hj
    exact absurd hj (List.not_mem_nil j)
  · intro j hj
    rw [hexi] at hj
    exact absurd hj (List.not_mem_nil j)
  · intro j hj
    rw [pinKeys, hpins] at hj
    rw [htks]
    exact hI.pins_tk j hj
  · intro p hp
    rw [hpins] at hp
    have hlen : (unmountSys s).passes.length = s.passes.length := by
      show (s.passes.map (fun pr => PassRec.mk [] pr.target)).length = _
      rw [List.length_map]
    rw [hlen]
    exact hI.pins_lt p hp
  · intro h
    exact Bool.noConfusion h
  · intro h
    exact Bool.noConfusion h
  · intro h
    exact Bool.noConfusion h
  · intro h
    exact Bool.noConfusion h
  · intro j hj e he hgk
    rw [pinKeys, hpins] at hj
    exact hI.wrapped j hj e he hgk

lemma sysInv_step {s s' : SysState} (hI : SysInv s) (h : SysStep s s') : SysInv s' := by
  cases h with
  | pass t ht => exact sysInv_renderPass hI t ht
  | exitFire k hk => exact sysInv_onExit hI k hk
  | unmount => exact sysInv_unmount hI

/-- **C9 (amended)**: every key contained in the exiting set has an entry in
the known-children table, in every state reachable from a fresh mount through
evaluation passes (with the documented distinct-keys caller contract),
unmounts, and completions delivered through the *current* pass's `onExit`
closure — that is, as long as each exiting key completes before a further
evaluation pass re-renders it as still exiting.  (A completion arriving
through a closure an earlier pass pinned into the memoized context instead
deletes the key from the known-children table while the current exiting set
retains it: see the counterexample.) -/
theorem c9_exiting_keys_amended (s : SysState) (h : SysReachable s) :
    ∀ k ∈ s.exiting, (mapGet s.allChildren k).isSome = true := by
  have hi : SysInv s := by
    induction h with
    | init => exact sysInv_init
    | step hr hs ih => exact sysInv_step ih hs
  exact hi.exiting_has

/-- Witness for C9 (amended): after passes `[a, b]` then `[a]`, key `b` is
exiting and has a descriptor in the known-children table. -/
theorem c9_exiting_keys_amended_witness :
    "b" ∈ (renderPassSys (renderPassSys SysState.init [ea, eb]) [ea]).exiting ∧
      (mapGet (renderPassSys (renderPassSys SysState.init [ea, eb]) [ea]).allChildren
        "b").isSome = true := by
  have h1 : SysReachable (renderPassSys SysState.init [ea, eb]) :=
    SysReachable.step SysReachable.init
      (SysStep.pass SysState.init [ea, eb] (by decide))
  have h2 : SysReachable (renderPassSys (renderPassSys SysState.init [ea, eb]) [ea]) :=
    SysReachable.step h1 (SysStep.pass _ [ea] (by decide))
  exact ⟨by decide, c9_exiting_keys_amended _ h2 "b" (by decide)⟩

end Nanoanim
